import Mathlib

/-!
# melonos: the inode layer (kernel/fs/inode.c)

A shallow embedding of the inode cache, the block mapping and the read/write
path of melonos, followed by theorems about them.

Conventions of the embedding.

* C unsigned values are natural numbers; where the C arithmetic is done in 32
  bits the model reduces modulo `U32`.  A value returned as C `int` is an
  integer obtained through `toInt`.
* A pointer that the code tests against null is an `Option`.
* A C array has no bounds check.  An index past the end of an array reads (or
  writes) the memory that follows the array.  The model keeps that memory as an
  explicit component (`Env.addrs_past`, `ICache.past`, `Env.devices_past`), so
  that a theorem quantified over it holds whatever that memory contains.
* `panic` never returns: a function that panics yields `Fault.fatal`.
* A `while` loop is run with fuel; running out of fuel is `Fault.fuel`, and the
  theorems that say a call returns prove that the fuel given suffices.
-/

namespace Melon

/-! ## Configuration (kernel/fs/fdefs.h) -/

/-- Block size in bytes. -/
def BSIZE : Nat := 512

/-- Max number of devices. -/
def NDEV : Nat := 32

/-- Max number of inodes. -/
def NINODE : Nat := 128

/-- Modelled from the spec: the header defining `NDIRECT` is missing from the
sources; the spec fixes the number of direct pointers of an inode to 12. -/
def NDIRECT : Nat := 12

/-- Modelled from the spec: number of block numbers held by the index block,
block size divided by pointer size (a block number is a 4-byte `unsigned`). -/
def NINDIRECT : Nat := BSIZE / 4

/-- Modelled from the spec: the header defining `MAXFILE` is missing; the spec
gives maximum addressable file size = direct-count * block-size +
(block-size / pointer-size) * block-size. -/
def MAXFILE : Nat := NDIRECT * BSIZE + NINDIRECT * BSIZE

/-- Modelled from the spec: file type tag of a directory (the header defining
`FileType` is missing; tag 0 is the unset type, the values follow `T_DIR`,
`T_FILE`, `T_DEV` of fdefs.h). -/
def F_DIR : Nat := 1

/-- Modelled from the spec: file type tag of a regular file. -/
def F_FILE : Nat := 2

/-- Modelled from the spec: file type tag of a device file. -/
def F_DEV : Nat := 3

/-! ## Machine integers -/

/-- Number of values of a 32-bit word. -/
def U32 : Nat := 2 ^ 32

/-- Conversion of a 32-bit unsigned value to C `int` (two's complement). -/
def toInt (n : Nat) : Int :=
  if n % U32 < 2 ^ 31 then Int.ofNat (n % U32) else Int.ofNat (n % U32) - Int.ofNat U32

/-- Largest value of a C `int`. -/
def INT_MAX : Int := 2147483647

/-- Result of an arithmetic operation on C `int`: the mathematical result
reduced to the 32-bit two's complement range.  Signed overflow is undefined in
C; the model takes what the machine instruction gives, so that `INT_MAX + 1`
is `-2^31`. -/
def wrap_int (x : Int) : Int :=
  (x + 2147483648) % 4294967296 - 2147483648

/-! ## Outcomes -/

/-- Ways in which a call fails to return a value. -/
inductive Fault where
  /-- The kernel stopped in `panic(msg)`. -/
  | fatal (msg : String)
  /-- The caller is suspended on a mutex held by another thread. -/
  | blocked
  /-- Control left a non-void function without a `return` statement. -/
  | noreturn
  /-- The loop fuel of the model ran out. -/
  | fuel
deriving DecidableEq

/-! ## Mutex (mutex.h) -/

/-- Modelled from the spec: mutex.h is missing; an exclusive lock is free or
held by one thread. -/
structure Mutex where
  holder : Option Nat
deriving DecidableEq

/-- Modelled from the spec: `acquire-exclusive(lock)`.  A free lock is taken by
the caller `me`; a lock held by another thread suspends the caller; taking a
lock the caller already holds is a fatal contract violation. -/
def lock_mutex (me : Nat) (m : Mutex) : Except Fault Mutex :=
  match m.holder with
  | none => .ok { holder := some me }
  | some h => if h = me then .error (.fatal "lock_mutex: already held") else .error .blocked

/-- Modelled from the spec: `release-exclusive(lock)`. -/
def unlock_mutex (_m : Mutex) : Mutex :=
  { holder := none }

/-- Modelled from the spec: `currently-held-by-self(lock)`. -/
def holding_mutex (me : Nat) (m : Mutex) : Bool :=
  m.holder == some me

/-! ## Inodes -/

/-- On-disk payload of an inode, with the fields inode.c uses (`d.addrs` is the
table of `NDIRECT` direct pointers followed by one indirect pointer). -/
structure DInode where
  type  : Nat
  major : Nat
  minor : Nat
  nlink : Nat
  size  : Nat
  addrs : List Nat
deriving DecidableEq

/-- Memory representation of an inode (`Inode` of inode.c: `dev`, `inum`,
`nref`, `read`, `lk`, `d`).  `nref` is a C `int`: the code's `nref++` and
`nref--` go through `wrap_int`. -/
structure Inode where
  dev  : Nat
  inum : Nat
  nref : Int
  read : Bool
  lk   : Mutex
  d    : DInode
deriving DecidableEq

/-- Device interface (`Dev` of fdefs.h): optional read and write callbacks,
each taking the inode, the buffer and the length and returning an `int`. -/
structure Dev where
  read  : Option (Inode → (Nat → Nat) → Int → Int)
  write : Option (Inode → (Nat → Nat) → Int → Int)

/-! ## Environment and collaborators -/

/-- What inode.c takes from the rest of the kernel. -/
structure Env where
  /-- Modelled from the spec: the block allocator, `allocate(device) →
  block-number`; `balloc dev k` is the block handed out for `dev` by the call
  that follows `k` earlier allocations. -/
  balloc : Nat → Nat → Nat
  /-- Words found in memory behind the table `d.addrs` of the inode at hand. -/
  addrs_past : Nat → Nat
  /-- First block of the inode area (`super_block.inodestart`). -/
  inodestart : Nat
  /-- Size in bytes of one `Inode` (`sizeof(Inode)`). -/
  szInode : Nat
  /-- The device registry `devices[NDEV]`. -/
  devices : List Dev
  /-- Memory behind the device registry, seen as `Dev` entries. -/
  devices_past : Nat → Dev
  /-- Identity of the running thread. -/
  me : Nat

/-- Calls made to the buffer cache and to the block allocator. -/
inductive Call where
  | block_alloc (dev : Nat)
  | bcache_read (dev blockno : Nat)
  | bcache_write (dev blockno : Nat)
  | bcache_release (dev blockno : Nat)
deriving DecidableEq

/-- Modelled from the spec: the buffer cache together with the block device.
`store dev blockno i` is byte `i` of the frame that `bcache_read(dev, blockno)`
returns (an index of `BSIZE` or more is memory behind the frame); `nalloc`
counts the blocks allocated so far; `calls` lists the calls made, oldest
first. -/
structure World where
  store  : Nat → Nat → Nat → Nat
  nalloc : Nat
  calls  : List Call

/-- Modelled from the spec: `block_alloc(dev)`, a single call handing out a
block number. -/
def block_alloc (E : Env) (dev : Nat) (w : World) : Nat × World :=
  (E.balloc dev w.nalloc,
   { w with nalloc := w.nalloc + 1, calls := w.calls ++ [Call.block_alloc dev] })

/-- Modelled from the spec: `bcache_read(dev, blockno, false)`, acquire the
frame of a block; its content is `w.store dev blockno`. -/
def bcache_read (dev blockno : Nat) (w : World) : World :=
  { w with calls := w.calls ++ [Call.bcache_read dev blockno] }

/-- Modelled from the spec: `bcache_write(b, false)`, write the frame to the
device. -/
def bcache_write (dev blockno : Nat) (w : World) : World :=
  { w with calls := w.calls ++ [Call.bcache_write dev blockno] }

/-- Modelled from the spec: `bcache_release(b)`. -/
def bcache_release (dev blockno : Nat) (w : World) : World :=
  { w with calls := w.calls ++ [Call.bcache_release dev blockno] }

/-- The C `memmove(dst + d0, src + s0, n)` on two disjoint memory regions. -/
def memmove (dst : Nat → Nat) (d0 : Nat) (src : Nat → Nat) (s0 n : Nat) : Nat → Nat :=
  fun i => if d0 ≤ i ∧ i < d0 + n then src (s0 + (i - d0)) else dst i

/-- Replace the content of the frame of block `(dev, blockno)`. -/
def store_set (st : Nat → Nat → Nat → Nat) (dev blockno : Nat) (blk : Nat → Nat) :
    Nat → Nat → Nat → Nat :=
  fun d b => if d = dev ∧ b = blockno then blk else st d b

/-- Little-endian value of the `k` bytes of `b` starting at `pos`. -/
def le_word : Nat → (Nat → Nat) → Nat → Nat
  | 0, _, _ => 0
  | k + 1, b, pos => b pos % 256 + 256 * le_word k b (pos + 1)

/-- The `k` little-endian bytes of `v`. -/
def le_bytes : Nat → Nat → List Nat
  | 0, _ => []
  | k + 1, v => v % 256 :: le_bytes k (v / 256)

/-- The access `ino->d.addrs[i]`: inside the table for `i ≤ NDIRECT`, behind it
otherwise. -/
def addrs_at (E : Env) (d : DInode) (i : Nat) : Nat :=
  match d.addrs[i]? with
  | some v => v
  | none => E.addrs_past (i - d.addrs.length)

/-! ## On-disk layout of an inode -/

/-- Modelled from the spec: `sizeof(DInode)` for the persisted fields in order:
type tag (4 bytes), major, minor, link count (2 bytes each, then 2 bytes of
padding), size (4 bytes), block-pointer table (`NDIRECT + 1` words). -/
def sizeof_DInode : Nat := 16 + 4 * (NDIRECT + 1)

/-- The constant `inode_per_block = BSIZE / sizeof(DInode)`. -/
def inode_per_block : Nat := BSIZE / sizeof_DInode

/-- Modelled from the spec: the bytes of a `DInode` in memory (padding bytes
are taken to be zero). -/
def DInode.bytes (d : DInode) : List Nat :=
  le_bytes 4 d.type ++ le_bytes 2 d.major ++ le_bytes 2 d.minor ++ le_bytes 2 d.nlink
    ++ [0, 0] ++ le_bytes 4 d.size
    ++ ((List.range (NDIRECT + 1)).map (fun i => le_bytes 4 (d.addrs.getD i 0))).flatten

/-- Modelled from the spec: the `DInode` read from the `sizeof(DInode)` bytes
of `b` at `pos`. -/
def DInode.ofBytes (b : Nat → Nat) (pos : Nat) : DInode :=
  { type  := le_word 4 b pos
    major := le_word 2 b (pos + 4)
    minor := le_word 2 b (pos + 6)
    nlink := le_word 2 b (pos + 8)
    size  := le_word 4 b (pos + 12)
    addrs := (List.range (NDIRECT + 1)).map (fun i => le_word 4 b (pos + 16 + 4 * i)) }

/-- The function `get_inode_block`: the block an inode is stored in. -/
def get_inode_block (E : Env) (inum : Nat) : Nat :=
  (inum / inode_per_block + E.inodestart) % U32

/-! ## The inode cache -/

/-- The table `icache.inodes[NINODE]` together with the memory behind it, seen
through the layout of `Inode`. -/
structure ICache where
  inodes : List Inode
  past   : Nat → Inode

/-- The access `icache.inodes[i]`. -/
def ICache.slot (c : ICache) (i : Nat) : Inode :=
  match c.inodes[i]? with
  | some x => x
  | none => c.past (i - c.inodes.length)

/-- Assignment through the pointer `&icache.inodes[i]`. -/
def ICache.put (c : ICache) (i : Nat) (x : Inode) : ICache :=
  if i < c.inodes.length then { c with inodes := c.inodes.set i x }
  else { c with past := Function.update c.past (i - c.inodes.length) x }

/-- The loop of `inode_get` from index `i` on, with `k` iterations left.  The
result is the index of the slot returned (`none` for the null pointer) and the
cache afterwards. -/
def inode_get_from (dev inum : Nat) : Nat → Nat → ICache → Option Nat × ICache
  | 0, _, c => (none, c)
  | k + 1, i, c =>
    let ino := c.slot i
    if 0 ≤ ino.nref ∧ ino.dev = dev ∧ ino.inum = inum then
      (some i, c.put i { ino with nref := wrap_int (ino.nref + 1) })
    else if ino.nref = 0 then
      (some i, c.put i { ino with nref := 1, dev := dev, inum := inum, read := false })
    else inode_get_from dev inum k (i + 1) c

/-- The function `inode_get`.  The loop runs while `i < sizeof(icache.inodes)`,
the size of the table in bytes. -/
def inode_get (E : Env) (dev inum : Nat) (c : ICache) : Option Nat × ICache :=
  inode_get_from dev inum (NINODE * E.szInode) 0 c

/-- The function `inode_load`.  Returns the boolean result, the inode and the
world afterwards. -/
def inode_load (E : Env) (p : Option Inode) (w : World) :
    Except Fault (Bool × Option Inode × World) :=
  match p with
  | none => .ok (false, none, w)
  | some ino =>
    if ino.nref = 0 then .ok (false, some ino, w)
    else if ino.read then .ok (false, some ino, w)
    else
      let blockno := get_inode_block E ino.inum
      let nth := ino.inum % inode_per_block
      let w1 := bcache_read ino.dev blockno w
      let d := DInode.ofBytes (w1.store ino.dev blockno) (nth * sizeof_DInode)
      let w2 := bcache_release ino.dev blockno w1
      let ino1 := { ino with d := d, read := true }
      if ino1.d.type = 0 then .error (.fatal "inode_load: inode has no file type")
      else .ok (true, some ino1, w2)

/-- The function `inode_flush`. -/
def inode_flush (E : Env) (ino : Inode) (w : World) : World :=
  let blockno := get_inode_block E ino.inum
  let w1 := bcache_read ino.dev blockno w
  let nth := ino.inum % inode_per_block
  let blk := memmove (w1.store ino.dev blockno) (nth * sizeof_DInode)
    (fun i => ino.d.bytes.getD i 0) 0 sizeof_DInode
  let w2 := { w1 with store := store_set w1.store ino.dev blockno blk }
  bcache_release ino.dev blockno (bcache_write ino.dev blockno w2)

/-- The function `inode_lock`. -/
def inode_lock (E : Env) (p : Option Inode) (w : World) :
    Except Fault (Option Inode × World) :=
  match p with
  | none => .error (.fatal "inode_lock, invalid inode")
  | some ino =>
    if ino.nref = 0 then .error (.fatal "inode_lock, inode is not used")
    else
      match lock_mutex E.me ino.lk with
      | .error f => .error f
      | .ok lk1 =>
        match inode_load E (some { ino with lk := lk1 }) w with
        | .error f => .error f
        | .ok (loaded, q, w1) =>
          if !loaded then .ok (q.map (fun i => { i with lk := unlock_mutex i.lk }), w1)
          else .ok (q, w1)

/-- The function `inode_unlock`. -/
def inode_unlock (E : Env) (p : Option Inode) : Except Fault Inode :=
  match p with
  | none => .error (.fatal "inode_unlock: invalid inode")
  | some ino =>
    if !holding_mutex E.me ino.lk then .error (.fatal "inode_unlock: mutex not locked")
    else if ino.nref < 1 then .error (.fatal "inode_unlock: inode is not being used")
    else .ok { ino with lk := unlock_mutex ino.lk }

/-! ## Block mapping -/

/-- Result of `inode_bmap`: the block number returned, the inode and the world
after the call. -/
structure BmapRes where
  blockno : Nat
  ino     : Inode
  w       : World

/-- The function `inode_bmap`. -/
def inode_bmap (E : Env) (ino : Inode) (nth : Nat) (w : World) : BmapRes :=
  if nth < NDIRECT then
    let blockno := addrs_at E ino.d nth
    if blockno = 0 then
      let a := block_alloc E ino.dev w
      { blockno := a.1, ino := ino, w := a.2 }
    else { blockno := blockno, ino := ino, w := w }
  else
    let offset := nth - NDIRECT
    let ptrsno0 := addrs_at E ino.d nth
    let a := if ptrsno0 = 0 then block_alloc E ino.dev w else (ptrsno0, w)
    let w1 := bcache_read ino.dev a.1 a.2
    let blockno0 := le_word 4 (w1.store ino.dev a.1) (4 * offset)
    let b := if blockno0 = 0 then block_alloc E ino.dev w1 else (blockno0, w1)
    { blockno := b.1, ino := ino, w := bcache_release ino.dev a.1 b.2 }

/-! ## Read / write path -/

/-- The access `devices[i]`. -/
def devices_at (E : Env) (i : Nat) : Dev :=
  match E.devices[i]? with
  | some x => x
  | none => E.devices_past (i - E.devices.length)

/-- Variables of the transfer loops of `inode_read` and `inode_write`: the
memory at the caller's buffer pointer `buf`, the advance `bp` of that pointer,
the cursor `offset`, the count `n` of bytes moved so far (`rd`, `wt`), the
inode and the world. -/
structure Xfer where
  buf    : Nat → Nat
  bp     : Nat
  offset : Nat
  n      : Nat
  ino    : Inode
  w      : World

/-- One iteration of the `while (rd < sz)` loop of `inode_read`. -/
def read_step (E : Env) (sz : Nat) (s : Xfer) : Xfer :=
  let nth := s.offset / BSIZE
  let r := inode_bmap E s.ino nth s.w
  let w1 := bcache_read r.ino.dev r.blockno r.w
  let m := min ((sz - s.n) % U32) (BSIZE - s.offset % BSIZE)
  { buf := memmove s.buf s.bp (w1.store r.ino.dev r.blockno) (s.offset % BSIZE) m
    bp := s.bp + m
    offset := (s.offset + m) % U32
    n := (s.n + m) % U32
    ino := r.ino
    w := bcache_release r.ino.dev r.blockno w1 }

/-- The `while (rd < sz)` loop of `inode_read`, with fuel. -/
def read_loop (E : Env) (sz : Nat) : Nat → Xfer → Except Fault Xfer
  | 0, s => if s.n < sz then .error .fuel else .ok s
  | k + 1, s => if s.n < sz then read_loop E sz k (read_step E sz s) else .ok s

/-- One iteration of the `while (wt < sz)` loop of `inode_write`. -/
def write_step (E : Env) (sz : Nat) (s : Xfer) : Xfer :=
  let nth := s.offset / BSIZE
  let r := inode_bmap E s.ino nth s.w
  let w1 := bcache_read r.ino.dev r.blockno r.w
  let m := min ((sz - s.n) % U32) (BSIZE - s.offset % BSIZE)
  let blk := memmove (w1.store r.ino.dev r.blockno) (s.offset % BSIZE) s.buf s.bp m
  let w2 := { w1 with store := store_set w1.store r.ino.dev r.blockno blk }
  { buf := s.buf
    bp := s.bp + m
    offset := (s.offset + m) % U32
    n := (s.n + m) % U32
    ino := r.ino
    w := bcache_release r.ino.dev r.blockno (bcache_write r.ino.dev r.blockno w2) }

/-- The `while (wt < sz)` loop of `inode_write`, with fuel. -/
def write_loop (E : Env) (sz : Nat) : Nat → Xfer → Except Fault Xfer
  | 0, s => if s.n < sz then .error .fuel else .ok s
  | k + 1, s => if s.n < sz then write_loop E sz k (write_step E sz s) else .ok s

/-- Result of `inode_read` and `inode_write`: the `int` returned, the memory at
the caller's buffer, the inode and the world after the call. -/
structure IORes where
  ret : Int
  buf : Nat → Nat
  ino : Inode
  w   : World

/-- The function `inode_read`.  The loop gets `sz` units of fuel, one for each
byte to move. -/
def inode_read (E : Env) (ino : Inode) (buf : Nat → Nat) (offset sz : Nat) (w : World) :
    Except Fault IORes :=
  if ino.d.type = F_DEV then
    if ino.d.major > NDEV then .ok { ret := -1, buf := buf, ino := ino, w := w }
    else
      match (devices_at E ino.d.major).read with
      | none => .ok { ret := -1, buf := buf, ino := ino, w := w }
      | some f => .ok { ret := f ino buf (toInt sz), buf := buf, ino := ino, w := w }
  else if ino.d.type = F_DIR ∨ ino.d.type = F_FILE then
    if ino.d.size < offset then .ok { ret := -1, buf := buf, ino := ino, w := w }
    else if (U32 - 1) - offset < sz then .ok { ret := -1, buf := buf, ino := ino, w := w }
    else
      let sz1 := if (offset + sz) % U32 > ino.d.size then (ino.d.size - offset) % U32 else sz
      match read_loop E sz1 sz1 { buf := buf, bp := 0, offset := offset, n := 0, ino := ino, w := w } with
      | .error f => .error f
      | .ok s => .ok { ret := toInt sz1, buf := s.buf, ino := s.ino, w := s.w }
  else .error .noreturn

/-- The function `inode_write`.  The loop gets `sz` units of fuel, one for each
byte to move. -/
def inode_write (E : Env) (ino : Inode) (buf : Nat → Nat) (offset sz : Nat) (w : World) :
    Except Fault IORes :=
  if ino.d.type = F_DEV then
    if ino.d.major > NDEV then .ok { ret := -1, buf := buf, ino := ino, w := w }
    else
      match (devices_at E ino.d.major).write with
      | none => .ok { ret := -1, buf := buf, ino := ino, w := w }
      | some f => .ok { ret := f ino buf (toInt sz), buf := buf, ino := ino, w := w }
  else if ino.d.type = F_DIR ∨ ino.d.type = F_FILE then
    if ino.d.size < offset then .ok { ret := -1, buf := buf, ino := ino, w := w }
    else if (U32 - 1) - offset < sz then .ok { ret := -1, buf := buf, ino := ino, w := w }
    else if (offset + sz) % U32 > MAXFILE then .ok { ret := -1, buf := buf, ino := ino, w := w }
    else
      match write_loop E sz sz { buf := buf, bp := 0, offset := offset, n := 0, ino := ino, w := w } with
      | .error f => .error f
      | .ok s =>
        if s.offset > s.ino.d.size then
          let ino1 := { s.ino with d := { s.ino.d with size := s.offset } }
          .ok { ret := toInt sz, buf := s.buf, ino := ino1, w := inode_flush E ino1 s.w }
        else .ok { ret := toInt sz, buf := s.buf, ino := s.ino, w := s.w }
  else .error .noreturn

/-! ## Sample data -/

/-- An allocator handing out blocks 100, 101, 102, ... on every device. -/
def balloc_seq (_dev k : Nat) : Nat := 100 + k

/-- A zeroed `DInode` of the given type: size 0 and no block allocated. -/
def dinode0 (type : Nat) : DInode :=
  { type := type, major := 0, minor := 0, nlink := 1, size := 0, addrs := List.replicate (NDIRECT + 1) 0 }

/-- A zeroed, free slot of the inode table. -/
def slot0 : Inode :=
  { dev := 0, inum := 0, nref := 0, read := false, lk := { holder := none }, d := dinode0 0 }

/-- An environment: blocks 100, 101, ... from the allocator, zeroed memory
behind the arrays, no device registered, inode area at block 2, thread 1. -/
def env0 : Env :=
  { balloc := balloc_seq, addrs_past := fun _ => 0, inodestart := 2, szInode := 96,
    devices := List.replicate NDEV { read := none, write := none },
    devices_past := fun _ => { read := none, write := none }, me := 1 }

/-- A world with a zeroed disk and nothing allocated. -/
def world0 : World :=
  { store := fun _ _ _ => 0, nalloc := 0, calls := [] }

/-- A loaded, empty regular file: inode 7 of device 0, one reference. -/
def file0 : Inode :=
  { dev := 0, inum := 7, nref := 1, read := true, lk := { holder := none }, d := dinode0 F_FILE }

end Melon

namespace Melon

/-- A table of `NINODE` slots that starts with the slots `l`, the others free
and zeroed, followed by zeroed memory. -/
def icache_of (l : List Inode) : ICache :=
  { inodes := l ++ List.replicate (NINODE - l.length) slot0, past := fun _ => slot0 }

/-- A full table: slot `i` is live (one reference) and caches inode `i + 1` of
device 0. -/
def icache_full : ICache :=
  icache_of ((List.range NINODE).map (fun i => { slot0 with inum := i + 1, nref := 1 }))

/-- A table whose slot 0 is free and whose slot 1 is live (one reference) with
identity (0, 7). -/
def icache_hit_later : ICache :=
  icache_of [slot0, { slot0 with inum := 7, nref := 1 }]

/-- A table whose slot 0 is free (no reference) and still carries identity
(0, 7) with its loaded flag set. -/
def icache_stale : ICache :=
  icache_of [{ slot0 with inum := 7, read := true }]

/-- The world in which the payload of `file0` has been flushed to its place on
disk. -/
def world_file0 : World :=
  inode_flush env0 file0 world0

/-- The inode `file0` in a slot that has not loaded it yet. -/
def file0_unloaded : Inode :=
  { file0 with read := false, d := dinode0 0 }

/-- The call `inode_lock(ino)` followed by `inode_unlock(ino)`. -/
def lock_then_unlock (E : Env) (p : Option Inode) (w : World) : Except Fault Inode :=
  match inode_lock E p w with
  | .error f => .error f
  | .ok (q, _) => inode_unlock E q

/-- The call `inode_write(ino, data, offset, sz)` followed by
`inode_read(ino, buf, offset, sz)` on the same inode. -/
def write_then_read (E : Env) (ino : Inode) (data buf : Nat → Nat) (offset sz : Nat)
    (w : World) : Except Fault IORes :=
  match inode_write E ino data offset sz w with
  | .error f => .error f
  | .ok r => inode_read E r.ino buf offset sz r.w

/-- A loaded regular file whose indirect pointer is block 50 and whose direct
pointers are unset. -/
def file_ind : Inode :=
  { file0 with d := { dinode0 F_FILE with addrs := List.replicate NDIRECT 0 ++ [50] } }

/-- A world in which block 50 of device 0 is an index block with entry 0 equal
to 66 and entry 1 equal to 77. -/
def world_ind : World :=
  { store := fun dev b i => if dev = 0 ∧ b = 50 then (if i = 0 then 66 else if i = 4 then 77 else 0) else 0
    nalloc := 0
    calls := [] }

/-- A loaded regular file of 2^31 bytes. -/
def file_huge : Inode :=
  { file0 with d := { dinode0 F_FILE with size := 2 ^ 31 } }

end Melon

namespace Melon

/-! ## Reference counts and stat -/

/-- The function `inode_dup`: `ino->nref++`. -/
def inode_dup (ino : Inode) : Inode :=
  { ino with nref := wrap_int (ino.nref + 1) }

/-- The function `inode_drop`: `ino->nref--`. -/
def inode_drop (ino : Inode) : Inode :=
  { ino with nref := wrap_int (ino.nref - 1) }

/-- File status (`Stat` of fdefs.h): `type` and `nlink` are C `short`. -/
structure Stat where
  type  : Int
  dev   : Nat
  inum  : Nat
  nlink : Int
  size  : Nat
deriving DecidableEq

/-- Conversion of a 16-bit unsigned value to C `short` (two's complement). -/
def toShort (n : Nat) : Int :=
  if n % 2 ^ 16 < 2 ^ 15 then Int.ofNat (n % 2 ^ 16) else Int.ofNat (n % 2 ^ 16) - 2 ^ 16

/-- The function `inode_stat`: the record behind `stat` after the call, given
its content before the call. -/
def inode_stat (ino : Inode) (stat : Stat) : Stat :=
  { stat with dev := ino.dev, inum := ino.inum, nlink := toShort ino.d.nlink, size := ino.d.size }

/-! ## More sample data -/

/-- A device registry with no callback in entry 0, callbacks in entry 1 that
return the length they are given, and no callback in the other entries; the
memory behind the registry looks like an entry whose callbacks return 42 and
43. -/
def env_dev : Env :=
  { env0 with
    devices := [{ read := none, write := none },
                { read := some (fun _ _ n => n), write := some (fun _ _ n => n) }]
               ++ List.replicate (NDEV - 2) { read := none, write := none }
    devices_past := fun _ =>
      { read := some (fun _ _ _ => 42), write := some (fun _ _ _ => 43) } }

/-- A loaded device inode with the given major number. -/
def dev_inode (major : Nat) : Inode :=
  { file0 with d := { dinode0 F_DEV with major := major } }

/-- A `Stat` record filled with the given value in every field. -/
def stat_filled (v : Nat) : Stat :=
  { type := v, dev := v, inum := v, nlink := v, size := v }

/-- The world in which the payload stored on disk for inode 7 of device 0 has
the type tag `tag`. -/
def world_tag (tag : Nat) : World :=
  inode_flush env0 { file0 with d := dinode0 tag } world0

end Melon

namespace Melon

/-! ## Vocabulary of the claims about the transfer loops -/

/-- Initial variables of a transfer loop: nothing moved yet. -/
def xfer_init (buf : Nat → Nat) (offset : Nat) (ino : Inode) (w : World) : Xfer :=
  { buf := buf, bp := 0, offset := offset, n := 0, ino := ino, w := w }

/-- The number `m` of bytes that one iteration of a transfer loop moves:
`min(sz - n, BSIZE - offset % BSIZE)`. -/
def chunk (sz : Nat) (s : Xfer) : Nat :=
  min ((sz - s.n) % U32) (BSIZE - s.offset % BSIZE)

/-- What is claimed of an iteration started in state `s`: the loop condition
holds, the iteration moves between 1 and `BSIZE` bytes, stays inside one block
and does not move more than `sz` bytes in total. -/
def chunk_ok (sz : Nat) (s : Xfer) : Prop :=
  s.n < sz ∧ 1 ≤ chunk sz s ∧ chunk sz s ≤ BSIZE ∧
    s.offset % BSIZE + chunk sz s ≤ BSIZE ∧ s.n + chunk sz s ≤ sz

/-- What an iteration of the read loop started in state `s` does, with
`m = chunk sz s` and `b` the block `inode_bmap` gives for the block of the
cursor.  Count, cursor and buffer pointer advance by `m`; the inode is as
before; exactly the `m` bytes of the caller's buffer at the buffer pointer are
overwritten, with the bytes of the frame of `b` from `offset % BSIZE` on; the
content of the store is unchanged; and the calls made are those of
`inode_bmap`, then one `bcache_read` and one `bcache_release` of `b`. -/
def read_moves (E : Env) (sz : Nat) (s : Xfer) : Prop :=
  (read_step E sz s).n = s.n + chunk sz s ∧
  (read_step E sz s).offset = s.offset + chunk sz s ∧
  (read_step E sz s).bp = s.bp + chunk sz s ∧
  (read_step E sz s).ino = s.ino ∧
  (∀ j, (read_step E sz s).buf j =
    if s.bp ≤ j ∧ j < s.bp + chunk sz s then
      s.w.store s.ino.dev (inode_bmap E s.ino (s.offset / BSIZE) s.w).blockno
        (s.offset % BSIZE + (j - s.bp))
    else s.buf j) ∧
  (read_step E sz s).w.store = s.w.store ∧
  (read_step E sz s).w.nalloc = (inode_bmap E s.ino (s.offset / BSIZE) s.w).w.nalloc ∧
  (read_step E sz s).w.calls = (inode_bmap E s.ino (s.offset / BSIZE) s.w).w.calls ++
    [Call.bcache_read s.ino.dev (inode_bmap E s.ino (s.offset / BSIZE) s.w).blockno,
     Call.bcache_release s.ino.dev (inode_bmap E s.ino (s.offset / BSIZE) s.w).blockno]

/-- What an iteration of the write loop started in state `s` does, with
`m = chunk sz s` and `b` the block `inode_bmap` gives for the block of the
cursor.  Count, cursor and buffer pointer advance by `m`; the inode and the
caller's buffer are as before; in the whole store exactly the `m` bytes of the
frame of `b` from `offset % BSIZE` on are overwritten, with the bytes of the
caller's buffer at the buffer pointer; and the calls made are those of
`inode_bmap`, then one `bcache_read`, one `bcache_write` and one
`bcache_release` of `b`, and no other. -/
def write_moves (E : Env) (sz : Nat) (s : Xfer) : Prop :=
  (write_step E sz s).n = s.n + chunk sz s ∧
  (write_step E sz s).offset = s.offset + chunk sz s ∧
  (write_step E sz s).bp = s.bp + chunk sz s ∧
  (write_step E sz s).ino = s.ino ∧
  (write_step E sz s).buf = s.buf ∧
  (∀ d b j, (write_step E sz s).w.store d b j =
    if d = s.ino.dev ∧ b = (inode_bmap E s.ino (s.offset / BSIZE) s.w).blockno ∧
        s.offset % BSIZE ≤ j ∧ j < s.offset % BSIZE + chunk sz s then
      s.buf (s.bp + (j - s.offset % BSIZE))
    else s.w.store d b j) ∧
  (write_step E sz s).w.nalloc = (inode_bmap E s.ino (s.offset / BSIZE) s.w).w.nalloc ∧
  (write_step E sz s).w.calls = (inode_bmap E s.ino (s.offset / BSIZE) s.w).w.calls ++
    [Call.bcache_read s.ino.dev (inode_bmap E s.ino (s.offset / BSIZE) s.w).blockno,
     Call.bcache_write s.ino.dev (inode_bmap E s.ino (s.offset / BSIZE) s.w).blockno,
     Call.bcache_release s.ino.dev (inode_bmap E s.ino (s.offset / BSIZE) s.w).blockno]

/-- The number of iterations claimed for a transfer of `n` bytes from `offset`:
none for `n = 0`, otherwise the number of blocks from the block of `offset` to
the block of `offset + n - 1`. -/
def xfer_iterations (offset n : Nat) : Nat :=
  if n = 0 then 0 else (offset + n - 1) / BSIZE - offset / BSIZE + 1

end Melon

namespace Melon

/-! ## Vocabulary of the claim about the content read -/

/-- Logical block `nth` of the inode is already allocated: in the direct range
its pointer `d.addrs[nth]` is set; past it, the indirect pointer
`d.addrs[NDIRECT]` is set and so is entry `nth - NDIRECT` of the index block. -/
def block_allocated (ino : Inode) (nth : Nat) (w : World) : Prop :=
  if nth < NDIRECT then ino.d.addrs.getD nth 0 ≠ 0
  else ino.d.addrs.getD NDIRECT 0 ≠ 0 ∧
    le_word 4 (w.store ino.dev (ino.d.addrs.getD NDIRECT 0)) (4 * (nth - NDIRECT)) ≠ 0

/-- The flat reference read: byte `k` of a read that starts at `offset` is
byte `(offset + k) mod BSIZE` of the physical block that `inode_bmap` gives for
logical block `(offset + k) div BSIZE`. -/
def flat_read (E : Env) (ino : Inode) (w : World) (offset k : Nat) : Nat :=
  w.store ino.dev (inode_bmap E ino ((offset + k) / BSIZE) w).blockno ((offset + k) % BSIZE)

end Melon

namespace Melon

/-- A loaded regular file of 15 blocks (7680 bytes) whose blocks are all
allocated: direct pointers 10 to 21, indirect pointer 50. -/
def file_alloc : Inode :=
  { file0 with d := { dinode0 F_FILE with size := 7680, addrs := (List.range NDIRECT).map (fun i => 10 + i) ++ [50] } }

/-- The disk of `file_alloc`: block 50 is its index block with entries 76, 77
and 78 for the logical blocks 12, 13 and 14; the data blocks 21, 76, 77 and 78
are filled with the bytes 5, 6, 7 and 8; block 103, a free block, still holds
the byte 3 everywhere; every other byte is zero. -/
def world_alloc : World :=
  { store := fun dev b i =>
      if dev = 0 then
        if b = 50 then (if i = 0 then 76 else if i = 4 then 77 else if i = 8 then 78 else 0)
        else if b = 21 then 5 else if b = 76 then 6 else if b = 77 then 7
        else if b = 78 then 8 else if b = 103 then 3 else 0
      else 0
    nalloc := 0
    calls := [] }

end Melon

namespace Melon

/-- The fields of a payload fit their C types: 32 bits for the type tag, the
size and the block pointers, 16 bits for major, minor and link count, and a
pointer table of `NDIRECT + 1` entries. -/
def DInode.fits (d : DInode) : Prop :=
  d.type < 2 ^ 32 ∧ d.major < 2 ^ 16 ∧ d.minor < 2 ^ 16 ∧ d.nlink < 2 ^ 16 ∧
    d.size < 2 ^ 32 ∧ d.addrs.length = NDIRECT + 1 ∧ ∀ a ∈ d.addrs, a < 2 ^ 32

end Melon

namespace Melon

/-! ## Sequences of calls on the inode table -/

/-- A call on the inode table: `inode_get(dev, inum)`, or `inode_dup` or
`inode_drop` on the slot `&icache.inodes[i]`. -/
inductive ICall where
  | get (dev inum : Nat)
  | dup (i : Nat)
  | drop (i : Nat)
deriving DecidableEq

/-- The inode table after one call. -/
def icall_step (E : Env) (c : ICache) : ICall → ICache
  | .get dev inum => (inode_get E dev inum c).2
  | .dup i => c.put i (inode_dup (c.slot i))
  | .drop i => c.put i (inode_drop (c.slot i))

/-- The inode table after a sequence of calls, first call first. -/
def icalls (E : Env) : ICache → List ICall → ICache
  | c, [] => c
  | c, x :: l => icalls E (icall_step E c x) l

/-- Every slot of the table has a reference count >= 0. -/
def refs_nonneg (c : ICache) : Prop :=
  ∀ x ∈ c.inodes, 0 ≤ x.nref

/-- Every slot of the table has a reference count of at most `INT_MAX`, the
largest value of a C `int`. -/
def refs_int (c : ICache) : Prop :=
  ∀ x ∈ c.inodes, x.nref ≤ INT_MAX

/-- Every call of the sequence finds the count it changes in range when it is
made: an `inode_drop` is applied to a live slot (count >= 1), an `inode_dup` to
a slot whose count is below `INT_MAX`, and the slot that an `inode_get` returns
has a count below `INT_MAX` before the call. -/
def calls_in_range (E : Env) : ICache → List ICall → Prop
  | _, [] => True
  | c, .drop i :: l =>
    1 ≤ (c.slot i).nref ∧ calls_in_range E (icall_step E c (.drop i)) l
  | c, .dup i :: l =>
    (c.slot i).nref < INT_MAX ∧ calls_in_range E (icall_step E c (.dup i)) l
  | c, .get dev inum :: l =>
    (∀ i ∈ (inode_get E dev inum c).1, (c.slot i).nref < INT_MAX) ∧
      calls_in_range E (icall_step E c (.get dev inum)) l

/-- A table whose slot 0 is live with the largest count a C `int` holds. -/
def icache_max : ICache :=
  icache_of [{ slot0 with nref := INT_MAX }]

end Melon

namespace Melon

/-! ## The terminal (tty.c)

Strings live in a flat memory `mem : Nat → Nat` of bytes and are passed by
address, as in C.  The header tty.h and the escape-sequence parser are not part
of the sources at hand. -/

/-- Screen width in cells. -/
def VGA_WIDTH : Nat := 80

/-- Screen height in cells. -/
def VGA_HEIGHT : Nat := 25

/-- The terminal `term`: cursor, colour and VGA buffer (an index of
`VGA_HEIGHT * VGA_WIDTH` or more is memory behind the buffer), with two records
kept for the claims: `out`, the characters given to `tty_putchar`, and `cells`,
the buffer indices written by `put_entry_at`, both oldest first. -/
structure Terminal where
  row    : Nat
  column : Nat
  color  : Nat
  buffer : Nat → Nat
  out    : List Nat
  cells  : List Nat

/-- The function `vga_entry_color`: `fg | bg << 4` as `uint8_t`. -/
def vga_entry_color (fg bg : Nat) : Nat :=
  (fg ||| (bg <<< 4)) % 256

/-- The function `vga_entry`: `(uint16_t)uc | (uint16_t)color << 8`. -/
def vga_entry (uc color : Nat) : Nat :=
  ((uc % 256) ||| ((color % 256) <<< 8)) % 65536

/-- The function `set_bg_color`: `term.color |= bg << 4`. -/
def set_bg_color (bg : Nat) (t : Terminal) : Terminal :=
  { t with color := (t.color ||| (bg <<< 4)) % 256 }

/-- The function `set_fg_color`. -/
def set_fg_color (fg : Nat) (t : Terminal) : Terminal :=
  { t with color := vga_entry_color fg (t.color >>> 4) }

/-- The function `tty_clear`: cursor to the origin and a blank in every cell,
row by row. -/
def tty_clear (t : Terminal) : Terminal :=
  { t with
    row := 0
    column := 0
    buffer := (List.range VGA_HEIGHT).foldl
      (fun b y => (List.range VGA_WIDTH).foldl
        (fun b x => Function.update b (y * VGA_WIDTH + x) (vga_entry 32 t.color)) b)
      t.buffer }

/-- The function `newline`. -/
def newline (t : Terminal) : Terminal :=
  { t with column := 0, row := t.row + 1 }

/-- The function `put_entry_at`. -/
def put_entry_at (c : Nat) (t : Terminal) : Terminal :=
  { t with
    buffer := Function.update t.buffer (t.row * VGA_WIDTH + t.column) (vga_entry c t.color)
    cells := t.cells ++ [t.row * VGA_WIDTH + t.column] }

/-- The function `tty_putchar`. -/
def tty_putchar (c : Nat) (t : Terminal) : Terminal :=
  let t0 := { t with out := t.out ++ [c] }
  let t1 := if t0.row > VGA_HEIGHT then tty_clear t0 else t0
  if c = 10 then newline t1
  else
    let t2 := put_entry_at c t1
    if t2.column + 1 = VGA_WIDTH then
      if t2.row + 1 = VGA_HEIGHT then { t2 with column := 0, row := 0 }
      else { t2 with column := 0, row := t2.row + 1 }
    else { t2 with column := t2.column + 1 }

/-- Modelled from the spec: the colour named by an escape sequence, as far as
`ansi_cntl` tells the cases apart (the header ansi.h is missing). -/
inductive ANSIColor where
  | BBLK | BRED | BGRN | BYLW | BBLU | BMAG | BCYA | BWHT | BDEF
  | FBLK | FRED | FGRN | FYLW | FBLU | FMAG | FCYA | FWHT | FDEF
  | RES | other
deriving DecidableEq

/-- Modelled from the spec: the parsed escape sequence `ANSIState`, with the
three tags `ansi_cntl` tells apart. -/
inductive ANSIState where
  | color (c : ANSIColor)
  | cursor
  | erase
deriving DecidableEq

/-- The function `ansi_cntl`, with the usual numbers of the VGA palette (black
0, blue 1, green 2, cyan 3, red 4, light magenta 13, light brown 14, white
15). -/
def ansi_cntl (a : ANSIState) (t : Terminal) : Terminal :=
  match a with
  | .color .BBLK => set_bg_color 0 t
  | .color .BRED => set_bg_color 4 t
  | .color .BGRN => set_bg_color 2 t
  | .color .BYLW => set_bg_color 14 t
  | .color .BBLU => set_bg_color 1 t
  | .color .BMAG => set_bg_color 13 t
  | .color .BCYA => set_bg_color 3 t
  | .color .BWHT => set_bg_color 15 t
  | .color .BDEF => set_bg_color 0 t
  | .color .FBLK => set_fg_color 0 t
  | .color .FRED => set_fg_color 4 t
  | .color .FGRN => set_fg_color 2 t
  | .color .FYLW => set_fg_color 14 t
  | .color .FBLU => set_fg_color 1 t
  | .color .FMAG => set_fg_color 13 t
  | .color .FCYA => set_fg_color 3 t
  | .color .FWHT => set_fg_color 15 t
  | .color .FDEF => set_fg_color 15 t
  | .color .RES => { t with color := vga_entry_color 15 0 }
  | .color .other => t
  | .cursor => t
  | .erase => t

/-- The escape-sequence parser `ansi_parse(&ansi, data)`, a parameter of the
model: for the memory and an address it gives the parsed state and the address
behind the sequence, or `none` for the null pointer. -/
abbrev AnsiParse : Type := (Nat → Nat) → Nat → Option (ANSIState × Nat)

/-- The function `tty_writec`: the address returned and the terminal after the
call. -/
def tty_writec (P : AnsiParse) (mem : Nat → Nat) (data : Nat) (t : Terminal) :
    Nat × Terminal :=
  let r : Nat × Terminal :=
    if mem data = 27 then
      match P mem data with
      | some (a, p) => (p, ansi_cntl a t)
      | none => (data, t)
    else (data, t)
  (r.1 + 1, tty_putchar (mem r.1) r.2)

/-- The function `strlen`, searching at most `fuel` bytes. -/
def strlen (mem : Nat → Nat) : Nat → Nat → Except Fault Nat
  | 0, _ => .error .fuel
  | k + 1, p =>
    if mem p = 0 then .ok 0
    else
      match strlen mem k (p + 1) with
      | .ok n => .ok (n + 1)
      | .error f => .error f

/-- The `while (data < end)` loop of `tty_write_string`, with fuel. -/
def write_string_loop (P : AnsiParse) (mem : Nat → Nat) (last : Nat) :
    Nat → Nat → Terminal → Except Fault (Nat × Terminal)
  | 0, data, t => if data < last then .error .fuel else .ok (data, t)
  | k + 1, data, t =>
    if data < last then
      write_string_loop P mem last k (tty_writec P mem data t).1 (tty_writec P mem data t).2
    else .ok (data, t)

/-- The function `tty_write_string`: the address returned and the terminal
after the call. -/
def tty_write_string (P : AnsiParse) (mem : Nat → Nat) (fuel : Nat) (data : Nat)
    (t : Terminal) : Except Fault (Nat × Terminal) :=
  match strlen mem fuel data with
  | .error f => .error f
  | .ok n => write_string_loop P mem (data + n) fuel data t

/-- The character `digits[d]` of `print_uint`, for `d < 16`. -/
def digit_char (d : Nat) : Nat :=
  if d < 10 then 48 + d else 55 + d

/-- The `do ... while (n)` loop of `print_uint`: the digits of `n`, lowest
first, at most `fuel` of them. -/
def uint_digits (base : Nat) : Nat → Nat → List Nat
  | 0, _ => []
  | k + 1, n =>
    digit_char (n % base) :: (if n / base = 0 then [] else uint_digits base k (n / base))

/-- The function `print_uint`: the buffer holds the digits lowest first, then
the marks of the base; it is reversed by `strrev` and written with
`tty_write_string`. -/
def print_uint (P : AnsiParse) (n base : Nat) (t : Terminal) : Except Fault Terminal :=
  let marks : List Nat :=
    if base = 2 then [120, 98] else if base = 8 then [111, 48]
    else if base = 16 then [120, 48] else []
  let buf := (uint_digits base 32 (n % U32) ++ marks).reverse
  match tty_write_string P (fun i => buf.getD i 0) (buf.length + 1) 0 t with
  | .error f => .error f
  | .ok r => .ok r.2

/-- The function `print_int`, on the 32-bit word that holds the `int`. -/
def print_int (P : AnsiParse) (n base : Nat) (t : Terminal) : Except Fault Terminal :=
  if toInt n < 0 then print_uint P ((U32 - n % U32) % U32) base (tty_putchar 45 t)
  else print_uint P n base t

/-- Variables of the loop of `tty_printf`: the format pointer, the number
of variadic arguments taken so far and the terminal. -/
structure Printf where
  fmt  : Nat
  narg : Nat
  t    : Terminal

/-- One iteration of the `while (*fmt)` loop of `tty_printf`; `args k` is the
32-bit word of the variadic argument number `k`. -/
def printf_step (P : AnsiParse) (mem : Nat → Nat) (args : Nat → Nat) (fuel : Nat)
    (s : Printf) : Except Fault Printf :=
  if mem s.fmt = 37 then
    let fmt := s.fmt + 1
    if mem fmt = 100 then
      match print_int P (args s.narg) 10 s.t with
      | .error f => .error f
      | .ok t => .ok { fmt := fmt + 1, narg := s.narg + 1, t := t }
    else if mem fmt = 120 then
      match print_uint P (args s.narg) 16 s.t with
      | .error f => .error f
      | .ok t => .ok { fmt := fmt + 1, narg := s.narg + 1, t := t }
    else if mem fmt = 112 then
      match print_uint P (args s.narg) 16 s.t with
      | .error f => .error f
      | .ok t => .ok { fmt := fmt + 1, narg := s.narg + 1, t := t }
    else if mem fmt = 99 then
      .ok { fmt := fmt + 1, narg := s.narg + 1, t := tty_putchar (args s.narg % 256) s.t }
    else if mem fmt = 115 then
      match tty_write_string P mem fuel (args s.narg) s.t with
      | .error f => .error f
      | .ok r => .ok { fmt := r.1, narg := s.narg + 1, t := r.2 }
    else .ok { fmt := fmt, narg := s.narg, t := s.t }
  else
    .ok { fmt := (tty_writec P mem s.fmt s.t).1, narg := s.narg, t := (tty_writec P mem s.fmt s.t).2 }

/-- The `while (*fmt)` loop of `tty_printf`, with fuel. -/
def printf_loop (P : AnsiParse) (mem : Nat → Nat) (args : Nat → Nat) (fuel : Nat) :
    Nat → Printf → Except Fault Printf
  | 0, s => if mem s.fmt = 0 then .ok s else .error .fuel
  | k + 1, s =>
    if mem s.fmt = 0 then .ok s
    else
      match printf_step P mem args fuel s with
      | .error f => .error f
      | .ok s1 => printf_loop P mem args fuel k s1

/-- The function `tty_printf`: the terminal after the call.  Every loop of the
call gets `fuel` units of fuel. -/
def tty_printf (P : AnsiParse) (mem : Nat → Nat) (fmt : Nat) (args : Nat → Nat)
    (fuel : Nat) (t : Terminal) : Except Fault Terminal :=
  match printf_loop P mem args fuel fuel { fmt := fmt, narg := 0, t := t } with
  | .error f => .error f
  | .ok s => .ok s.t

/-- A parser that recognises no escape sequence. -/
def no_ansi : AnsiParse := fun _ _ => none

/-- A terminal with the cursor at the origin, white on black, an empty screen
and empty records. -/
def term0 : Terminal :=
  { row := 0, column := 0, color := vga_entry_color 15 0, buffer := fun _ => 0, out := [],
    cells := [] }

/-- A memory holding the format "a%sb" at address 0 and the string "XY" at
address 16, each with its terminating zero byte. -/
def mem_fmt : Nat → Nat :=
  fun i => ([97, 37, 115, 98, 0] ++ List.replicate 11 0 ++ [88, 89, 0]).getD i 0

/-- A memory holding the format "a%cb" at address 0. -/
def mem_fmt_c : Nat → Nat :=
  fun i => [97, 37, 99, 98, 0].getD i 0

/-- The characters given to `tty_putchar` by a call, if the call returns. -/
def emitted (r : Except Fault Terminal) : Option (List Nat) :=
  match r with
  | .ok t => some t.out
  | .error _ => none

end Melon

namespace Melon

/-! ## Start of the terminal and runs of characters -/

/-- The string literal "melonos 0.0.1\n" that `tty_init` writes. -/
def banner : List Nat :=
  [109, 101, 108, 111, 110, 111, 115, 32, 48, 46, 48, 46, 49, 10]

/-- The function `tty_init`: cursor to the origin, white on black, a cleared
screen, then the banner written with `tty_write_string`. -/
def tty_init (P : AnsiParse) (t : Terminal) : Except Fault Terminal :=
  let t1 := tty_clear { t with row := 0, column := 0, color := vga_entry_color 15 0 }
  match tty_write_string P (fun i => banner.getD i 0) (banner.length + 1) 0 t1 with
  | .error f => .error f
  | .ok r => .ok r.2

/-- A sequence of `tty_putchar` calls, first character first. -/
def tty_putchars : List Nat → Terminal → Terminal
  | [], t => t
  | c :: cs, t => tty_putchars cs (tty_putchar c t)

/-- The cursor and the cells written by `put_entry_at` after `tty_init` on an
empty terminal followed by `tty_putchar` on each character of `cs`. -/
def init_then_putchars (P : AnsiParse) (cs : List Nat) : Option (Nat × Nat × List Nat) :=
  match tty_init P term0 with
  | .error _ => none
  | .ok t =>
    some ((tty_putchars cs t).row, (tty_putchars cs t).column,
      (tty_putchars cs t).cells.drop t.cells.length)

end Melon

namespace Melon

/-! ## Basic facts -/

theorem inode_bmap_ino (E : Env) (ino : Inode) (nth : Nat) (w : World) :
    (inode_bmap E ino nth w).ino = ino := by
  unfold inode_bmap
  split
  · dsimp only
    split <;> rfl
  · rfl

theorem chunk_bounds (sz n offset : Nat) (hsz : sz < U32) (hn : n < sz) :
    1 ≤ min ((sz - n) % U32) (BSIZE - offset % BSIZE) ∧
      min ((sz - n) % U32) (BSIZE - offset % BSIZE) ≤ sz - n := by
  have h1 : (sz - n) % U32 = sz - n := Nat.mod_eq_of_lt (by omega)
  have h2 : offset % BSIZE < BSIZE := Nat.mod_lt _ (by decide)
  rw [h1]
  constructor
  · exact Nat.le_min.mpr ⟨by omega, by omega⟩
  · exact Nat.min_le_left _ _

theorem write_step_n (E : Env) (sz : Nat) (s : Xfer) :
    (write_step E sz s).n = (s.n + min ((sz - s.n) % U32) (BSIZE - s.offset % BSIZE)) % U32 :=
  rfl

theorem write_step_offset (E : Env) (sz : Nat) (s : Xfer) :
    (write_step E sz s).offset
      = (s.offset + min ((sz - s.n) % U32) (BSIZE - s.offset % BSIZE)) % U32 :=
  rfl

theorem write_step_ino (E : Env) (sz : Nat) (s : Xfer) : (write_step E sz s).ino = s.ino :=
  inode_bmap_ino E s.ino _ s.w

theorem write_step_buf (E : Env) (sz : Nat) (s : Xfer) : (write_step E sz s).buf = s.buf :=
  rfl

/-- The write loop returns: with fuel for every byte still to move it ends with
all `sz` bytes moved, the cursor advanced by as much, and the inode as before. -/
theorem write_loop_ok (E : Env) (sz : Nat) (hsz : sz < U32) :
    ∀ (k : Nat) (s : Xfer), s.n ≤ sz → sz - s.n ≤ k → s.offset + (sz - s.n) < U32 →
      ∃ t, write_loop E sz k s = .ok t ∧ t.n = sz ∧ t.offset = s.offset + (sz - s.n)
        ∧ t.ino = s.ino ∧ t.buf = s.buf := by
  intro k
  induction k with
  | zero =>
    intro s hn hk _
    refine ⟨s, ?_, by omega, by omega, rfl, rfl⟩
    have : ¬ s.n < sz := by omega
    simp [write_loop, this]
  | succ k ih =>
    intro s hn hk ho
    by_cases h : s.n < sz
    · obtain ⟨hm1, hm2⟩ := chunk_bounds sz s.n s.offset hsz h
      have hn1 : (write_step E sz s).n
          = s.n + min ((sz - s.n) % U32) (BSIZE - s.offset % BSIZE) := by
        rw [write_step_n]; exact Nat.mod_eq_of_lt (by omega)
      have ho1 : (write_step E sz s).offset
          = s.offset + min ((sz - s.n) % U32) (BSIZE - s.offset % BSIZE) := by
        rw [write_step_offset]; exact Nat.mod_eq_of_lt (by omega)
      obtain ⟨t, ht, htn, hto, hti, htb⟩ :=
        ih (write_step E sz s) (by omega) (by omega) (by omega)
      refine ⟨t, ?_, htn, ?_, ?_, ?_⟩
      · simp [write_loop, h, ht]
      · rw [hto, hn1, ho1]; omega
      · rw [hti, write_step_ino]
      · rw [htb, write_step_buf]
    · refine ⟨s, ?_, by omega, by omega, rfl, rfl⟩
      simp [write_loop, h]

theorem read_step_n (E : Env) (sz : Nat) (s : Xfer) :
    (read_step E sz s).n = (s.n + min ((sz - s.n) % U32) (BSIZE - s.offset % BSIZE)) % U32 :=
  rfl

theorem read_step_offset (E : Env) (sz : Nat) (s : Xfer) :
    (read_step E sz s).offset
      = (s.offset + min ((sz - s.n) % U32) (BSIZE - s.offset % BSIZE)) % U32 :=
  rfl

theorem read_step_ino (E : Env) (sz : Nat) (s : Xfer) : (read_step E sz s).ino = s.ino :=
  inode_bmap_ino E s.ino _ s.w

/-- The read loop returns: with fuel for every byte still to move it ends with
all `sz` bytes moved and the inode as before. -/
theorem read_loop_ok (E : Env) (sz : Nat) (hsz : sz < U32) :
    ∀ (k : Nat) (s : Xfer), s.n ≤ sz → sz - s.n ≤ k → s.offset + (sz - s.n) < U32 →
      ∃ t, read_loop E sz k s = .ok t ∧ t.n = sz ∧ t.offset = s.offset + (sz - s.n)
        ∧ t.ino = s.ino := by
  intro k
  induction k with
  | zero =>
    intro s hn hk _
    refine ⟨s, ?_, by omega, by omega, rfl⟩
    have : ¬ s.n < sz := by omega
    simp [read_loop, this]
  | succ k ih =>
    intro s hn hk ho
    by_cases h : s.n < sz
    · obtain ⟨hm1, hm2⟩ := chunk_bounds sz s.n s.offset hsz h
      have hn1 : (read_step E sz s).n
          = s.n + min ((sz - s.n) % U32) (BSIZE - s.offset % BSIZE) := by
        rw [read_step_n]; exact Nat.mod_eq_of_lt (by omega)
      have ho1 : (read_step E sz s).offset
          = s.offset + min ((sz - s.n) % U32) (BSIZE - s.offset % BSIZE) := by
        rw [read_step_offset]; exact Nat.mod_eq_of_lt (by omega)
      obtain ⟨t, ht, htn, hto, hti⟩ :=
        ih (read_step E sz s) (by omega) (by omega) (by omega)
      refine ⟨t, ?_, htn, ?_, ?_⟩
      · simp [read_loop, h, ht]
      · rw [hto, hn1, ho1]; omega
      · rw [hti, read_step_ino]
    · refine ⟨s, ?_, by omega, by omega, rfl⟩
      simp [read_loop, h]

end Melon

namespace Melon

theorem not_dev_of_dir_or_file (ino : Inode) (ht : ino.d.type = F_DIR ∨ ino.d.type = F_FILE) :
    ¬ ino.d.type = F_DEV := by
  rcases ht with h | h <;> rw [h] <;> decide

theorem toInt_small (n : Nat) (h : n < 2 ^ 31) : toInt n = (n : Int) := by
  have h1 : n % U32 = n := Nat.mod_eq_of_lt (by unfold U32; omega)
  unfold toInt
  rw [h1, if_pos h]
  rfl

/-- Value returned by `inode_read` on a directory or a regular file, as the C
`int` it is. -/
theorem inode_read_ret (E : Env) (ino : Inode) (buf : Nat → Nat) (offset sz : Nat) (w : World)
    (ht : ino.d.type = F_DIR ∨ ino.d.type = F_FILE) (ho : offset < U32) (hs : sz < U32) :
    ∃ r, inode_read E ino buf offset sz w = .ok r ∧ r.ino = ino ∧
      r.ret = if ino.d.size < offset ∨ U32 ≤ offset + sz then -1
              else toInt (min sz (ino.d.size - offset)) := by
  have hd := not_dev_of_dir_or_file ino ht
  unfold inode_read
  rw [if_neg hd, if_pos ht]
  by_cases h1 : ino.d.size < offset
  · rw [if_pos h1]
    exact ⟨_, rfl, rfl, by simp [h1]⟩
  · rw [if_neg h1]
    by_cases h2 : (U32 - 1) - offset < sz
    · rw [if_pos h2]
      refine ⟨_, rfl, rfl, ?_⟩
      have : U32 ≤ offset + sz := by omega
      simp [this]
    · rw [if_neg h2]
      have h3 : offset + sz < U32 := by omega
      have h4 : (offset + sz) % U32 = offset + sz := Nat.mod_eq_of_lt h3
      have hsz1 : (if (offset + sz) % U32 > ino.d.size then (ino.d.size - offset) % U32 else sz)
          = min sz (ino.d.size - offset) := by
        rw [h4]
        split
        · rw [Nat.mod_eq_of_lt (by omega)]; omega
        · omega
      dsimp only
      rw [hsz1]
      have hle : min sz (ino.d.size - offset) ≤ sz := Nat.min_le_left _ _
      obtain ⟨t, ht1, _, _, hti⟩ := read_loop_ok E (min sz (ino.d.size - offset)) (by omega)
        (min sz (ino.d.size - offset))
        { buf := buf, bp := 0, offset := offset, n := 0, ino := ino, w := w }
        (Nat.zero_le _) (by simp) (by simp only; omega)
      rw [ht1]
      refine ⟨_, rfl, hti, ?_⟩
      have : ¬ (ino.d.size < offset ∨ U32 ≤ offset + sz) := by omega
      simp [this]

/-- Outcome of `inode_write` on a directory or a regular file when the range
fits below `MAXFILE`. -/
theorem inode_write_ret (E : Env) (ino : Inode) (buf : Nat → Nat) (offset sz : Nat) (w : World)
    (ht : ino.d.type = F_DIR ∨ ino.d.type = F_FILE) (hmax : offset + sz ≤ MAXFILE) :
    ∃ r, inode_write E ino buf offset sz w = .ok r ∧
      r.ret = (if ino.d.size < offset then -1 else (sz : Int)) ∧
      r.ino.d.size = (if ino.d.size < offset then ino.d.size
                      else max ino.d.size (offset + sz)) ∧
      r.buf = buf := by
  have hd := not_dev_of_dir_or_file ino ht
  have hM : MAXFILE = 71680 := by decide
  have hU : U32 = 4294967296 := by decide
  unfold inode_write
  rw [if_neg hd, if_pos ht]
  by_cases h1 : ino.d.size < offset
  · rw [if_pos h1]
    exact ⟨_, rfl, by simp [h1], by simp [h1], rfl⟩
  · rw [if_neg h1]
    have h2 : ¬ (U32 - 1) - offset < sz := by omega
    have h4 : (offset + sz) % U32 = offset + sz := Nat.mod_eq_of_lt (by omega)
    have h5 : ¬ (offset + sz) % U32 > MAXFILE := by omega
    rw [if_neg h2, if_neg h5]
    obtain ⟨t, ht1, _, hto, hti, htb⟩ := write_loop_ok E sz (by omega) sz
      { buf := buf, bp := 0, offset := offset, n := 0, ino := ino, w := w }
      (Nat.zero_le _) (by simp) (by simp only; omega)
    rw [ht1]
    simp only at hto hti htb
    have hret : toInt sz = (sz : Int) := toInt_small sz (by omega)
    dsimp only
    by_cases h6 : t.offset > t.ino.d.size
    · rw [if_pos h6]
      refine ⟨_, rfl, ?_, ?_, htb⟩
      · simp [h1, hret]
      · rw [if_neg h1]
        rw [hti, hto] at h6
        show t.offset = _
        rw [hto]; omega
    · rw [if_neg h6]
      refine ⟨_, rfl, ?_, ?_, htb⟩
      · simp [h1, hret]
      · rw [if_neg h1]
        show t.ino.d.size = _
        rw [hti, hto] at h6
        rw [hti]; omega

end Melon

namespace Melon

/-! ## Block mapping: claims C1 to C3 -/

/-- A direct pointer that is set is returned as it is: no allocation and no
change to the inode or to the world. -/
theorem inode_bmap_direct_set (E : Env) (ino : Inode) (nth : Nat) (w : World)
    (hn : nth < NDIRECT) (hset : addrs_at E ino.d nth ≠ 0) :
    inode_bmap E ino nth w = { blockno := addrs_at E ino.d nth, ino := ino, w := w } := by
  unfold inode_bmap
  rw [if_pos hn]
  dsimp only
  rw [if_neg hset]

/-- C1 (round trip of inode_write and inode_read), evaluated on the empty
regular file with 6000 bytes of value 171 written at offset 0: both calls
return 6000, yet the first byte read back is 0 and not 171.  The blocks that
inode_bmap allocates for the write are never recorded in the inode, so the read
maps the same logical blocks to other, freshly allocated blocks. -/
theorem write_then_read_loses_data :
    ∃ r, write_then_read env0 file0 (fun _ => 171) (fun _ => 0) 0 6000 world0 = .ok r ∧
      r.ret = 6000 ∧ r.buf 0 = 0 ∧ r.w.nalloc = 24 :=
  ⟨_, rfl, by decide, by decide, by decide⟩

/-- C2 (direct-range mapping allocates once and records the result), evaluated
on the empty regular file at logical block 0: inode_bmap returns the allocated
block 100, the inode's direct pointer 0 is still zero afterwards, and a second
inode_bmap on the resulting inode allocates again and returns block 101. -/
theorem inode_bmap_direct_not_recorded :
    (inode_bmap env0 file0 0 world0).blockno = 100 ∧
      (inode_bmap env0 file0 0 world0).w.nalloc = 1 ∧
      addrs_at env0 (inode_bmap env0 file0 0 world0).ino.d 0 = 0 ∧
      (inode_bmap env0 (inode_bmap env0 file0 0 world0).ino 0
        (inode_bmap env0 file0 0 world0).w).blockno = 101 ∧
      (inode_bmap env0 (inode_bmap env0 file0 0 world0).ino 0
        (inode_bmap env0 file0 0 world0).w).w.nalloc = 2 := by
  decide

/-- C3 (indirect-range mapping goes through the single indirect pointer),
evaluated on a file whose indirect pointer is block 50, an index block with
entry 0 = 66 and entry 1 = 77.  For logical block NDIRECT the code returns
entry 0 without allocating.  For logical block NDIRECT + 1 it reads the table
at index NDIRECT + 1, behind the table, finds zero there, allocates an index
block and then a data block, and returns block 101 instead of entry 1 = 77. -/
theorem inode_bmap_indirect_wrong_index :
    addrs_at env0 file_ind.d NDIRECT = 50 ∧
      le_word 4 (world_ind.store 0 50) 4 = 77 ∧
      (inode_bmap env0 file_ind NDIRECT world_ind).blockno = 66 ∧
      (inode_bmap env0 file_ind NDIRECT world_ind).w.nalloc = 0 ∧
      (inode_bmap env0 file_ind (NDIRECT + 1) world_ind).blockno = 101 ∧
      (inode_bmap env0 file_ind (NDIRECT + 1) world_ind).w.nalloc = 2 := by
  decide

/-! ## The inode table: claims C4 to C6 -/

set_option maxRecDepth 100000 in
/-- C4 (cache hit in inode_get), evaluated on a table whose slot 0 is free and
whose slot 1 is live with identity (0, 7): inode_get(0, 7) claims slot 0
instead of returning slot 1, whose reference count stays 1, and the table then
holds two live slots with identity (0, 7). -/
theorem inode_get_misses_later_hit :
    (inode_get env0 0 7 icache_hit_later).1 = some 0 ∧
      (inode_get env0 0 7 icache_hit_later).2.slot 1 = icache_hit_later.slot 1 ∧
      ((inode_get env0 0 7 icache_hit_later).2.slot 0).nref = 1 ∧
      ((inode_get env0 0 7 icache_hit_later).2.slot 0).dev = 0 ∧
      ((inode_get env0 0 7 icache_hit_later).2.slot 0).inum = 7 ∧
      ((inode_get env0 0 7 icache_hit_later).2.slot 1).nref = 1 ∧
      ((inode_get env0 0 7 icache_hit_later).2.slot 1).dev = 0 ∧
      ((inode_get env0 0 7 icache_hit_later).2.slot 1).inum = 7 := by
  decide

set_option maxRecDepth 100000 in
/-- C5 (cache miss in inode_get), evaluated on a table whose slot 0 is free
(reference count 0) and still carries identity (0, 7) with its loaded flag set:
inode_get(0, 7) returns slot 0 with reference count 1 and the loaded flag still
true. -/
theorem inode_get_keeps_stale_read_flag :
    (icache_stale.slot 0).nref = 0 ∧
      (inode_get env0 0 7 icache_stale).1 = some 0 ∧
      ((inode_get env0 0 7 icache_stale).2.slot 0).nref = 1 ∧
      ((inode_get env0 0 7 icache_stale).2.slot 0).dev = 0 ∧
      ((inode_get env0 0 7 icache_stale).2.slot 0).inum = 7 ∧
      ((inode_get env0 0 7 icache_stale).2.slot 0).read = true := by
  decide

set_option maxRecDepth 100000 in
/-- C6 (table exhaustion in inode_get), evaluated on a table of NINODE live
slots none of which has identity (0, 1000), followed by zeroed memory:
inode_get(0, 1000) does not return null; the scan goes on to index NINODE,
behind the table, and the call returns that slot after writing to it. -/
theorem inode_get_scans_past_table :
    icache_full.inodes.length = NINODE ∧
      (∀ x ∈ icache_full.inodes, 1 ≤ x.nref ∧ ¬ (x.dev = 0 ∧ x.inum = 1000)) ∧
      (inode_get env0 0 1000 icache_full).1 = some NINODE ∧
      (inode_get env0 0 1000 icache_full).2.inodes = icache_full.inodes ∧
      ((inode_get env0 0 1000 icache_full).2.past 0).nref = 1 ∧
      ((inode_get env0 0 1000 icache_full).2.past 0).inum = 1000 := by
  decide

/-! ## Locking: claim C7 -/

/-- C7 (postcondition of inode_lock), evaluated on inode 7 of device 0, whose
payload on disk has the valid type F_FILE, with one reference and a free lock.
When the inode is not yet loaded, inode_lock returns it loaded and locked, and
inode_unlock succeeds.  When it is already loaded, inode_lock returns with the
lock released again, and inode_unlock then stops in its fatal check. -/
theorem inode_lock_releases_loaded_inode :
    (DInode.ofBytes (world_file0.store 0 (get_inode_block env0 7))
        (7 % inode_per_block * sizeof_DInode)).type = F_FILE ∧
    (∃ q w1, inode_lock env0 (some file0_unloaded) world_file0 = .ok (some q, w1) ∧
      q.read = true ∧ holding_mutex env0.me q.lk = true ∧ q.d = file0.d) ∧
    (∃ q, lock_then_unlock env0 (some file0_unloaded) world_file0 = .ok q) ∧
    (∃ q w1, inode_lock env0 (some file0) world_file0 = .ok (some q, w1) ∧
      q.read = true ∧ holding_mutex env0.me q.lk = false) ∧
    lock_then_unlock env0 (some file0) world_file0
      = .error (.fatal "inode_unlock: mutex not locked") :=
  ⟨by decide, ⟨_, _, rfl, by decide, by decide, by decide⟩, ⟨_, rfl⟩,
    ⟨_, _, rfl, by decide, by decide⟩, rfl⟩

end Melon

namespace Melon

/-! ## Entry checks of the read / write path: claims C8 to C10 -/

/-- C8 as stated fails where the count does not fit a C int: on a regular file
of 2^31 bytes a read of 2^31 bytes at offset 0 passes both checks, is not
clamped, and returns -2^31 rather than min(length, size - offset) = 2^31. -/
theorem inode_read_huge_count_negative :
    ∃ r, inode_read env0 file_huge (fun _ => 0) 0 (2 ^ 31) world0 = .ok r ∧
      r.ret = -2147483648 ∧
      r.ret ≠ ((min (2 ^ 31) (file_huge.d.size - 0) : Nat) : Int) := by
  obtain ⟨r, hr, _, hret⟩ := inode_read_ret env0 file_huge (fun _ => 0) 0 (2 ^ 31) world0
    (by decide) (by decide) (by decide)
  have hv : r.ret = -2147483648 := by
    rw [hret]
    decide
  refine ⟨r, hr, hv, ?_⟩
  rw [hv]
  decide

/-- C8, amended: on a directory or regular inode, for all 32-bit offset and
length, inode_read returns -1 if offset > size or if offset + length does not
fit in 32 bits; otherwise, with m = min(length, size - offset), it returns m
when m < 2^31 and m - 2^32 when m is 2^31 or more (the count is returned as a C
int).  The inode is unchanged. -/
theorem inode_read_result (E : Env) (ino : Inode) (buf : Nat → Nat) (offset sz : Nat)
    (w : World) (ht : ino.d.type = F_DIR ∨ ino.d.type = F_FILE)
    (ho : offset < U32) (hs : sz < U32) :
    ∃ r, inode_read E ino buf offset sz w = .ok r ∧ r.ino = ino ∧
      r.ret = if ino.d.size < offset ∨ U32 ≤ offset + sz then -1
              else if min sz (ino.d.size - offset) < 2 ^ 31
                then ((min sz (ino.d.size - offset) : Nat) : Int)
                else ((min sz (ino.d.size - offset) : Nat) : Int) - 2 ^ 32 := by
  obtain ⟨r, hr, hi, hret⟩ := inode_read_ret E ino buf offset sz w ht ho hs
  refine ⟨r, hr, hi, ?_⟩
  rw [hret]
  by_cases hc : ino.d.size < offset ∨ U32 ≤ offset + sz
  · rw [if_pos hc, if_pos hc]
  · rw [if_neg hc, if_neg hc]
    have hlt : min sz (ino.d.size - offset) < U32 :=
      lt_of_le_of_lt (Nat.min_le_left _ _) hs
    unfold toInt
    rw [Nat.mod_eq_of_lt hlt]
    split
    · rfl
    · simp [U32]

/-- Witness for C8: a read of 100 bytes at offset 5 of a file of 2^31 bytes
returns 100. -/
theorem inode_read_result_witness :
    ∃ r, inode_read env0 file_huge (fun _ => 0) 5 100 world0 = .ok r ∧ r.ino = file_huge ∧
      r.ret = if file_huge.d.size < 5 ∨ U32 ≤ 5 + 100 then -1
              else if min 100 (file_huge.d.size - 5) < 2 ^ 31
                then ((min 100 (file_huge.d.size - 5) : Nat) : Int)
                else ((min 100 (file_huge.d.size - 5) : Nat) : Int) - 2 ^ 32 :=
  inode_read_result env0 file_huge (fun _ => 0) 5 100 world0 (by decide) (by decide) (by decide)

/-- C9: on a directory or regular inode, a write whose range ends past MAXFILE
(offset + length > MAXFILE, which includes every sum that overflows 32 bits)
returns -1 and changes nothing: the inode, the store, the allocator and the
list of calls made are as before.  The offset is a 32-bit value; the length may
be any value. -/
theorem inode_write_rejects_past_maxfile (E : Env) (ino : Inode) (buf : Nat → Nat)
    (offset sz : Nat) (w : World) (ht : ino.d.type = F_DIR ∨ ino.d.type = F_FILE)
    (ho : offset < U32) (hbig : MAXFILE < offset + sz) :
    inode_write E ino buf offset sz w = .ok { ret := -1, buf := buf, ino := ino, w := w } := by
  have hd := not_dev_of_dir_or_file ino ht
  have hM : MAXFILE = 71680 := by decide
  have hU : U32 = 4294967296 := by decide
  unfold inode_write
  rw [if_neg hd, if_pos ht]
  by_cases h1 : ino.d.size < offset
  · rw [if_pos h1]
  · rw [if_neg h1]
    by_cases h2 : (U32 - 1) - offset < sz
    · rw [if_pos h2]
    · rw [if_neg h2]
      have h4 : (offset + sz) % U32 = offset + sz := Nat.mod_eq_of_lt (by omega)
      have h5 : (offset + sz) % U32 > MAXFILE := by omega
      rw [if_pos h5]

/-- Witness for C9: one byte more than MAXFILE written at offset 0 of the empty
regular file. -/
theorem inode_write_rejects_past_maxfile_witness :
    inode_write env0 file0 (fun _ => 171) 0 (MAXFILE + 1) world0
      = .ok { ret := -1, buf := fun _ => 171, ino := file0, w := world0 } :=
  inode_write_rejects_past_maxfile env0 file0 (fun _ => 171) 0 (MAXFILE + 1) world0
    (by decide) (by decide) (by decide)

/-- C10 as stated fails: on the empty regular file (size 0) a write of one byte
at offset 1, well below MAXFILE, returns -1 and leaves the size at 0. -/
theorem inode_write_past_eof_fails :
    file0.d.size < 1 ∧ 1 + 1 ≤ MAXFILE ∧
      ∃ r, inode_write env0 file0 (fun _ => 171) 1 1 world0 = .ok r ∧
        r.ret = -1 ∧ r.ino.d.size = 0 :=
  ⟨by decide, by decide, _, rfl, by decide, by decide⟩

/-- C10, amended: on a directory or regular inode, for offset + length <=
MAXFILE, inode_write fails with -1 and leaves the size as it is when the
current size is below offset; when offset <= size it returns length and the size
afterwards is max(size, offset + length).  A write may start at most at the
current end of file. -/
theorem inode_write_offset_bound (E : Env) (ino : Inode) (buf : Nat → Nat)
    (offset sz : Nat) (w : World) (ht : ino.d.type = F_DIR ∨ ino.d.type = F_FILE)
    (hmax : offset + sz ≤ MAXFILE) :
    ∃ r, inode_write E ino buf offset sz w = .ok r ∧
      r.ret = (if ino.d.size < offset then -1 else (sz : Int)) ∧
      r.ino.d.size = (if ino.d.size < offset then ino.d.size
                      else max ino.d.size (offset + sz)) := by
  obtain ⟨r, hr, hret, hsize, _⟩ := inode_write_ret E ino buf offset sz w ht hmax
  exact ⟨r, hr, hret, hsize⟩

/-- Witness for C10: 600 bytes written at offset 0 of the empty regular
file. -/
theorem inode_write_offset_bound_witness :
    ∃ r, inode_write env0 file0 (fun _ => 171) 0 600 world0 = .ok r ∧
      r.ret = (if file0.d.size < 0 then -1 else ((600 : Nat) : Int)) ∧
      r.ino.d.size = (if file0.d.size < 0 then file0.d.size
                      else max file0.d.size (0 + 600)) :=
  inode_write_offset_bound env0 file0 (fun _ => 171) 0 600 world0 (by decide) (by decide)

end Melon

namespace Melon

/-! ## Device files, stat, load checks and placement: claims C12, C13, C15, C16 -/

/-- C12 (device dispatch is bounds-safe), evaluated on a registry of NDEV
entries and device inodes with major 1 and major NDEV.  Major 1 is dispatched to
its registered callbacks (which return the length, 10).  Major NDEV passes the
check `major > NDEV`: the code takes entry NDEV, behind the registry, and
returns what it finds there (42 and 43) instead of -1. -/
theorem device_major_NDEV_not_rejected :
    env_dev.devices.length = NDEV ∧ (dev_inode NDEV).d.type = F_DEV ∧
    (∃ r, inode_read env_dev (dev_inode 1) (fun _ => 0) 0 10 world0 = .ok r ∧ r.ret = 10) ∧
    (∃ r, inode_read env_dev (dev_inode 0) (fun _ => 0) 0 10 world0 = .ok r ∧ r.ret = -1) ∧
    (∃ r, inode_read env_dev (dev_inode NDEV) (fun _ => 0) 0 10 world0 = .ok r ∧ r.ret = 42) ∧
    (∃ r, inode_write env_dev (dev_inode NDEV) (fun _ => 0) 0 10 world0 = .ok r ∧
      r.ret = 43) :=
  ⟨by decide, by decide, ⟨_, rfl, by decide⟩, ⟨_, rfl, by decide⟩, ⟨_, rfl, by decide⟩,
    ⟨_, rfl, by decide⟩⟩

/-- C13 (inode_stat is a complete projection), evaluated on the regular file
`file0` and two output records filled with 5 and with 9: the fields dev, inum,
nlink and size come from the inode, but the type field keeps what the record
held before (5, then 9) and is not the inode's type F_FILE. -/
theorem inode_stat_leaves_type :
    (inode_stat file0 (stat_filled 5)).type = 5 ∧
    (inode_stat file0 (stat_filled 9)).type = 9 ∧
    file0.d.type = F_FILE ∧
    (inode_stat file0 (stat_filled 5)).dev = file0.dev ∧
    (inode_stat file0 (stat_filled 5)).inum = file0.inum ∧
    (inode_stat file0 (stat_filled 5)).nlink = file0.d.nlink ∧
    (inode_stat file0 (stat_filled 5)).size = file0.d.size := by
  decide

end Melon

namespace Melon

/-- An inode record of `s` bytes, with at least one record per block, never
straddles two blocks. -/
theorem record_inside_block (s inum : Nat) (hs : 1 ≤ BSIZE / s) :
    inum % (BSIZE / s) * s + s ≤ BSIZE := by
  have hk : inum % (BSIZE / s) < BSIZE / s := Nat.mod_lt _ hs
  have h1 : (inum % (BSIZE / s) + 1) * s ≤ BSIZE / s * s := Nat.mul_le_mul_right s hk
  have h2 : BSIZE / s * s ≤ BSIZE := Nat.div_mul_le_self BSIZE s
  have h3 : (inum % (BSIZE / s) + 1) * s = inum % (BSIZE / s) * s + s := by ring
  omega

/-- C15 as stated fails for a non-zero invalid tag: with type tag 7 stored on
disk for inode 7, inode_lock of the not yet loaded inode returns normally, the
inode marked loaded with type 7, which is none of F_DIR, F_FILE, F_DEV. -/
theorem inode_lock_accepts_invalid_tag :
    ∃ q w1, inode_lock env0 (some file0_unloaded) (world_tag 7) = .ok (some q, w1) ∧
      q.read = true ∧ q.d.type = 7 ∧
      ¬ (q.d.type = F_DIR ∨ q.d.type = F_FILE ∨ q.d.type = F_DEV) :=
  ⟨_, _, rfl, by decide, by decide, by decide⟩

/-- C15, amended: for a not yet loaded inode with reference count >= 1 and a
free lock, inode_lock aborts with the fatal error of inode_load exactly when
the type tag of the payload stored on disk is zero; with any non-zero tag,
valid or not, it returns with the lock held and the inode loaded with that
payload. -/
theorem inode_lock_type_check (E : Env) (ino : Inode) (w : World)
    (href : 1 ≤ ino.nref) (hread : ino.read = false) (hfree : ino.lk.holder = none) :
    inode_lock E (some ino) w =
      if (DInode.ofBytes (w.store ino.dev (get_inode_block E ino.inum))
            (ino.inum % inode_per_block * sizeof_DInode)).type = 0
      then .error (.fatal "inode_load: inode has no file type")
      else .ok (some { ino with
                  lk := { holder := some E.me }
                  read := true
                  d := DInode.ofBytes (w.store ino.dev (get_inode_block E ino.inum))
                        (ino.inum % inode_per_block * sizeof_DInode) },
                bcache_release ino.dev (get_inode_block E ino.inum)
                  (bcache_read ino.dev (get_inode_block E ino.inum) w)) := by
  have hn : ¬ ino.nref = 0 := by omega
  by_cases ht : (DInode.ofBytes (w.store ino.dev (get_inode_block E ino.inum))
      (ino.inum % inode_per_block * sizeof_DInode)).type = 0
  · simp [inode_lock, hn, lock_mutex, hfree, inode_load, hread, ht, bcache_read]
  · simp [inode_lock, hn, lock_mutex, hfree, inode_load, hread, ht, bcache_read]

/-- Witness for C15: on a disk whose payload for inode 7 has type tag 0,
inode_lock of the not yet loaded inode stops in the fatal error. -/
theorem inode_lock_type_check_witness :
    inode_lock env0 (some file0_unloaded) (world_tag 0)
      = .error (.fatal "inode_load: inode has no file type") :=
  (inode_lock_type_check env0 file0_unloaded (world_tag 0)
    (by decide) (by decide) (by decide)).trans (if_pos (by decide))

/-- C16: an inode record never straddles two blocks, for any record size `s`
with at least one record per block and for the layout of the code; and two
different 32-bit inode numbers never get the same pair of block number and
index within the block. -/
theorem inode_placement (E : Env) (s i j : Nat) (hs : 1 ≤ BSIZE / s)
    (hi : i < U32) (hj : j < U32) (hne : i ≠ j) :
    i % (BSIZE / s) * s + s ≤ BSIZE ∧
    1 ≤ inode_per_block ∧
    i % inode_per_block * sizeof_DInode + sizeof_DInode ≤ BSIZE ∧
    (get_inode_block E i, i % inode_per_block)
      ≠ (get_inode_block E j, j % inode_per_block) := by
  refine ⟨record_inside_block s i hs, by decide, record_inside_block sizeof_DInode i (by decide),
    ?_⟩
  intro h
  rw [Prod.mk.injEq] at h
  obtain ⟨h1, h2⟩ := h
  have hU : U32 = 4294967296 := by decide
  have hp : inode_per_block = 7 := by decide
  unfold get_inode_block at h1
  rw [hU, hp] at h1
  rw [hp] at h2
  rw [hU] at hi hj
  omega

/-- Witness for C16: inodes 13 and 14 (end of one block, start of the next). -/
theorem inode_placement_witness :
    13 % (BSIZE / 68) * 68 + 68 ≤ BSIZE ∧
    1 ≤ inode_per_block ∧
    13 % inode_per_block * sizeof_DInode + sizeof_DInode ≤ BSIZE ∧
    (get_inode_block env0 13, 13 % inode_per_block)
      ≠ (get_inode_block env0 14, 14 % inode_per_block) :=
  inode_placement env0 68 13 14 (by decide) (by decide) (by decide) (by decide)

end Melon

namespace Melon

/-! ## Termination and iteration count of the transfer loops: claim C19 -/

theorem xfer_iterations_step (o rem m : Nat) (hrem : 0 < rem)
    (hm : m = min rem (BSIZE - o % BSIZE)) :
    xfer_iterations o rem = 1 + xfer_iterations (o + m) (rem - m) := by
  have hB : BSIZE = 512 := rfl
  rw [hB] at hm
  unfold xfer_iterations
  rw [hB]
  by_cases h : rem ≤ 512 - o % 512
  · have hm' : m = rem := by omega
    have h0 : rem - m = 0 := by omega
    rw [if_neg (by omega), if_pos h0]
    omega
  · have hm' : m = 512 - o % 512 := by omega
    rw [if_neg (by omega), if_neg (by omega)]
    omega

/-- A loop that moves `chunk` bytes an iteration runs `xfer_iterations` times:
stated for any step function `f` and loop `L` of the shape of the two transfer
loops. -/
theorem xfer_loop_count (sz : Nat) (hsz : sz < U32) (f : Xfer → Xfer)
    (L : Nat → Xfer → Except Fault Xfer)
    (hL0 : ∀ s, L 0 s = if s.n < sz then .error .fuel else .ok s)
    (hL1 : ∀ k s, L (k + 1) s = if s.n < sz then L k (f s) else .ok s)
    (hfn : ∀ s, (f s).n = (s.n + chunk sz s) % U32)
    (hfo : ∀ s, (f s).offset = (s.offset + chunk sz s) % U32) :
    ∀ (k : Nat) (s : Xfer), s.n ≤ sz → sz - s.n ≤ k → s.offset + (sz - s.n) < U32 →
      L k s = .ok (f^[xfer_iterations s.offset (sz - s.n)] s) ∧
      (f^[xfer_iterations s.offset (sz - s.n)] s).n = sz ∧
      ∀ i, i < xfer_iterations s.offset (sz - s.n) →
        chunk_ok sz (f^[i] s) ∧
        (f (f^[i] s)).n = (f^[i] s).n + chunk sz (f^[i] s) ∧
        (f (f^[i] s)).offset = (f^[i] s).offset + chunk sz (f^[i] s) := by
  intro k
  induction k with
  | zero =>
    intro s hn hk _
    have h0 : sz - s.n = 0 := by omega
    have hlt : ¬ s.n < sz := by omega
    have hx : xfer_iterations s.offset 0 = 0 := by simp [xfer_iterations]
    rw [h0, hL0, if_neg hlt, hx]
    exact ⟨rfl, show s.n = sz by omega, fun i hi => absurd hi (Nat.not_lt_zero i)⟩
  | succ k ih =>
    intro s hn hk ho
    by_cases h : s.n < sz
    · obtain ⟨hm1, hm2⟩ := chunk_bounds sz s.n s.offset hsz h
      have hmod : (sz - s.n) % U32 = sz - s.n := Nat.mod_eq_of_lt (by omega)
      have hc : chunk sz s = min (sz - s.n) (BSIZE - s.offset % BSIZE) := by
        unfold chunk; rw [hmod]
      have hc1 : 1 ≤ chunk sz s := hm1
      have hc2 : chunk sz s ≤ sz - s.n := hm2
      have hn1 : (f s).n = s.n + chunk sz s := by
        rw [hfn]; exact Nat.mod_eq_of_lt (by omega)
      have ho1 : (f s).offset = s.offset + chunk sz s := by
        rw [hfo]; exact Nat.mod_eq_of_lt (by omega)
      have hrem : sz - (f s).n = sz - s.n - chunk sz s := by omega
      have hit := xfer_iterations_step s.offset (sz - s.n) (chunk sz s) (by omega) hc
      obtain ⟨ih1, ih2, ih3⟩ := ih (f s) (by omega) (by omega) (by omega)
      rw [ho1, hrem] at ih1 ih2 ih3
      rw [hL1, if_pos h, hit, Nat.add_comm 1, Function.iterate_succ_apply]
      refine ⟨ih1, ih2, ?_⟩
      intro i hi
      cases i with
      | zero =>
        have hcB : chunk sz s ≤ BSIZE - s.offset % BSIZE := by
          rw [hc]; exact Nat.min_le_right _ _
        have hlt : s.offset % BSIZE < BSIZE := Nat.mod_lt _ (by decide)
        refine ⟨?_, hn1, ho1⟩
        show chunk_ok sz s
        unfold chunk_ok
        generalize s.offset % BSIZE = r at hcB hlt
        generalize chunk sz s = c at hcB hc1 hc2
        exact ⟨h, hc1, by omega, by omega, by omega⟩
      | succ j =>
        rw [Function.iterate_succ_apply]
        exact ih3 j (by omega)
    · have h0 : sz - s.n = 0 := by omega
      have hx : xfer_iterations s.offset 0 = 0 := by simp [xfer_iterations]
      rw [h0, hL1, if_neg h, hx]
      exact ⟨rfl, show s.n = sz by omega, fun i hi => absurd hi (Nat.not_lt_zero i)⟩

/-- The function `inode_bmap` leaves the content of every block as it is. -/
theorem inode_bmap_keeps_store (E : Env) (ino : Inode) (nth : Nat) (w : World) :
    (inode_bmap E ino nth w).w.store = w.store := by
  unfold inode_bmap
  split
  · dsimp only
    split <;> rfl
  · dsimp only
    split <;> split <;> rfl

/-- An iteration of the read loop that advances its counters by `chunk` does
what `read_moves` says. -/
theorem read_step_moves (E : Env) (sz : Nat) (s : Xfer)
    (hn : (read_step E sz s).n = s.n + chunk sz s)
    (ho : (read_step E sz s).offset = s.offset + chunk sz s) : read_moves E sz s := by
  refine ⟨hn, ho, rfl, inode_bmap_ino E s.ino _ s.w, ?_, ?_, rfl, ?_⟩
  · intro j
    show memmove s.buf s.bp
      ((bcache_read _ _ (inode_bmap E s.ino (s.offset / BSIZE) s.w).w).store
        (inode_bmap E s.ino (s.offset / BSIZE) s.w).ino.dev
        (inode_bmap E s.ino (s.offset / BSIZE) s.w).blockno)
      (s.offset % BSIZE) (chunk sz s) j = _
    simp only [memmove, bcache_read, inode_bmap_keeps_store, inode_bmap_ino]
  · show (bcache_release _ _ (bcache_read _ _ (inode_bmap E s.ino _ s.w).w)).store = _
    simp only [bcache_release, bcache_read, inode_bmap_keeps_store]
  · show (bcache_release _ _ (bcache_read _ _ (inode_bmap E s.ino _ s.w).w)).calls = _
    simp [bcache_release, bcache_read, inode_bmap_ino]

/-- An iteration of the write loop that advances its counters by `chunk` does
what `write_moves` says. -/
theorem write_step_moves (E : Env) (sz : Nat) (s : Xfer)
    (hn : (write_step E sz s).n = s.n + chunk sz s)
    (ho : (write_step E sz s).offset = s.offset + chunk sz s) : write_moves E sz s := by
  refine ⟨hn, ho, rfl, inode_bmap_ino E s.ino _ s.w, rfl, ?_, rfl, ?_⟩
  · intro d b j
    show store_set (inode_bmap E s.ino (s.offset / BSIZE) s.w).w.store
      (inode_bmap E s.ino (s.offset / BSIZE) s.w).ino.dev
      (inode_bmap E s.ino (s.offset / BSIZE) s.w).blockno
      (memmove ((inode_bmap E s.ino (s.offset / BSIZE) s.w).w.store
          (inode_bmap E s.ino (s.offset / BSIZE) s.w).ino.dev
          (inode_bmap E s.ino (s.offset / BSIZE) s.w).blockno)
        (s.offset % BSIZE) s.buf s.bp (chunk sz s)) d b j = _
    simp only [store_set, memmove, inode_bmap_keeps_store, inode_bmap_ino]
    by_cases hb : d = s.ino.dev ∧ b = (inode_bmap E s.ino (s.offset / BSIZE) s.w).blockno
    · obtain ⟨hb1, hb2⟩ := hb
      subst hb1 hb2
      simp [memmove]
    · rw [if_neg hb, if_neg (fun h => hb ⟨h.1, h.2.1⟩)]
  · show (bcache_release _ _ (bcache_write _ _ _)).calls = _
    simp [bcache_release, bcache_write, bcache_read, inode_bmap_ino]

/-- C19: the transfer loops of inode_read and inode_write terminate.  For a
transfer of `n` bytes from `offset` with offset + n < 2^32 (what the entry
checks leave, `n` being the clamped length), each loop, given its `n` units of
fuel, returns after exactly `xfer_iterations offset n` iterations, that is
(offset + n - 1) div BSIZE - offset div BSIZE + 1 for n > 0 and none for n = 0;
it ends with all `n` bytes moved; and each iteration is started with the loop
condition true and moves m bytes, no more and no fewer, between the caller's
buffer and one frame (`read_moves`, `write_moves`), with 1 <= m <= BSIZE,
offset mod BSIZE + m <= BSIZE and a total of at most `n`. -/
theorem xfer_loops_terminate (E : Env) (ino : Inode) (buf : Nat → Nat) (w : World)
    (offset n : Nat) (hn : offset + n < U32) :
    read_loop E n n (xfer_init buf offset ino w)
        = .ok ((read_step E n)^[xfer_iterations offset n] (xfer_init buf offset ino w)) ∧
    write_loop E n n (xfer_init buf offset ino w)
        = .ok ((write_step E n)^[xfer_iterations offset n] (xfer_init buf offset ino w)) ∧
    ((read_step E n)^[xfer_iterations offset n] (xfer_init buf offset ino w)).n = n ∧
    ((write_step E n)^[xfer_iterations offset n] (xfer_init buf offset ino w)).n = n ∧
    (∀ i, i < xfer_iterations offset n →
      chunk_ok n ((read_step E n)^[i] (xfer_init buf offset ino w)) ∧
      read_moves E n ((read_step E n)^[i] (xfer_init buf offset ino w)) ∧
      chunk_ok n ((write_step E n)^[i] (xfer_init buf offset ino w)) ∧
      write_moves E n ((write_step E n)^[i] (xfer_init buf offset ino w))) := by
  have hr := xfer_loop_count n (by omega) (read_step E n) (read_loop E n)
    (fun _ => rfl) (fun _ _ => rfl) (fun _ => rfl) (fun _ => rfl) n
    (xfer_init buf offset ino w) (Nat.zero_le _) (by simp [xfer_init])
    (by simp only [xfer_init]; omega)
  have hw := xfer_loop_count n (by omega) (write_step E n) (write_loop E n)
    (fun _ => rfl) (fun _ _ => rfl) (fun _ => rfl) (fun _ => rfl) n
    (xfer_init buf offset ino w) (Nat.zero_le _) (by simp [xfer_init])
    (by simp only [xfer_init]; omega)
  simp only [xfer_init, Nat.sub_zero] at hr hw
  refine ⟨hr.1, hw.1, hr.2.1, hw.2.1, fun i hi => ?_⟩
  obtain ⟨r1, r2, r3⟩ := hr.2.2 i hi
  obtain ⟨w1, w2, w3⟩ := hw.2.2 i hi
  exact ⟨r1, read_step_moves E n _ r2 r3, w1, write_step_moves E n _ w2 w3⟩

/-- Witness for C19: 6000 bytes from offset 300 take 13 iterations. -/
theorem xfer_loops_terminate_witness :
    xfer_iterations 300 6000 = 13 ∧
    read_loop env0 6000 6000 (xfer_init (fun _ => 0) 300 file0 world0)
        = .ok ((read_step env0 6000)^[xfer_iterations 300 6000]
            (xfer_init (fun _ => 0) 300 file0 world0)) :=
  ⟨by decide,
    (xfer_loops_terminate env0 file0 (fun _ => 0) world0 300 6000 (by decide)).1⟩

end Melon

namespace Melon

/-! ## Size update of a write: claim C11 -/

/-- The calls made by `inode_flush`: one read, one write and one release of the
block that holds the inode. -/
theorem inode_flush_calls (E : Env) (ino : Inode) (w : World) :
    (inode_flush E ino w).calls = w.calls ++
      [Call.bcache_read ino.dev (get_inode_block E ino.inum),
       Call.bcache_write ino.dev (get_inode_block E ino.inum),
       Call.bcache_release ino.dev (get_inode_block E ino.inum)] := by
  simp [inode_flush, bcache_read, bcache_write, bcache_release]

/-- C11: a successful inode_write on a directory or regular inode (offset <=
size, offset + length <= MAXFILE) returns length; the inode afterwards is the
inode before with its size replaced by max(old size, offset + length), every
other field as before.  The transfer loop runs `xfer_iterations offset length`
iterations, each of which does the transfer of one data block and nothing else
(`write_moves`: inode_bmap, one bcache_read, the copy of the chunk into the
frame, one bcache_write, one bcache_release; no flush of the inode).  The world
afterwards is inode_flush applied once to the world the last iteration leaves
when offset + length > old size, and that world itself otherwise, so the calls
made are those of the loop followed by the three calls of one flush, or by
nothing. -/
theorem inode_write_size_update (E : Env) (ino : Inode) (buf : Nat → Nat)
    (offset sz : Nat) (w : World) (ht : ino.d.type = F_DIR ∨ ino.d.type = F_FILE)
    (hoff : offset ≤ ino.d.size) (hmax : offset + sz ≤ MAXFILE) :
    ∃ r, inode_write E ino buf offset sz w = .ok r ∧
      r.ret = (sz : Int) ∧
      r.ino = { ino with d := { ino.d with size := max ino.d.size (offset + sz) } } ∧
      (∀ i, i < xfer_iterations offset sz →
        write_moves E sz ((write_step E sz)^[i] (xfer_init buf offset ino w))) ∧
      r.w = (if ino.d.size < offset + sz then
          inode_flush E r.ino
            ((write_step E sz)^[xfer_iterations offset sz] (xfer_init buf offset ino w)).w
        else ((write_step E sz)^[xfer_iterations offset sz] (xfer_init buf offset ino w)).w) ∧
      r.w.calls =
        ((write_step E sz)^[xfer_iterations offset sz] (xfer_init buf offset ino w)).w.calls ++
        (if ino.d.size < offset + sz then
          [Call.bcache_read ino.dev (get_inode_block E ino.inum),
           Call.bcache_write ino.dev (get_inode_block E ino.inum),
           Call.bcache_release ino.dev (get_inode_block E ino.inum)]
         else []) := by
  have hd := not_dev_of_dir_or_file ino ht
  have hM : MAXFILE = 71680 := by decide
  have hU : U32 = 4294967296 := by decide
  have hw := xfer_loop_count sz (by omega) (write_step E sz) (write_loop E sz)
    (fun _ => rfl) (fun _ _ => rfl) (fun _ => rfl) (fun _ => rfl) sz
    (xfer_init buf offset ino w) (Nat.zero_le _) (by simp [xfer_init])
    (by simp only [xfer_init]; omega)
  simp only [xfer_init, Nat.sub_zero] at hw
  obtain ⟨hloop, _, hiter⟩ := hw
  obtain ⟨t, ht1, _, hto, hti, htb⟩ := write_loop_ok E sz (by omega) sz
    { buf := buf, bp := 0, offset := offset, n := 0, ino := ino, w := w }
    (Nat.zero_le _) (by simp) (by simp only; omega)
  simp only at hto hti htb
  have hT : (write_step E sz)^[xfer_iterations offset sz]
      { buf := buf, bp := 0, offset := offset, n := 0, ino := ino, w := w } = t := by
    have := hloop.symm.trans ht1
    exact Except.ok.inj this
  have h1 : ¬ ino.d.size < offset := by omega
  have h2 : ¬ (U32 - 1) - offset < sz := by omega
  have h4 : (offset + sz) % U32 = offset + sz := Nat.mod_eq_of_lt (by omega)
  have h5 : ¬ (offset + sz) % U32 > MAXFILE := by omega
  have hret : toInt sz = (sz : Int) := toInt_small sz (by omega)
  have hto' : t.offset = offset + sz := by omega
  have hmoves : ∀ i, i < xfer_iterations offset sz →
      write_moves E sz ((write_step E sz)^[i]
        { buf := buf, bp := 0, offset := offset, n := 0, ino := ino, w := w }) :=
    fun i hi => write_step_moves E sz _ (hiter i hi).2.1 (hiter i hi).2.2
  unfold inode_write
  rw [if_neg hd, if_pos ht, if_neg h1, if_neg h2, if_neg h5, ht1]
  simp only [xfer_init, hT]
  rw [hti, hto', hret]
  by_cases h6 : ino.d.size < offset + sz
  · have hmx : max ino.d.size (offset + sz) = offset + sz := by omega
    simp only [if_pos h6, hmx]
    exact ⟨_, rfl, rfl, rfl, hmoves, rfl, inode_flush_calls E _ t.w⟩
  · have hmx : max ino.d.size (offset + sz) = ino.d.size := by omega
    simp only [if_neg h6, hmx]
    exact ⟨_, rfl, rfl, rfl, hmoves, rfl, by simp⟩

/-- Witness for C11: 600 bytes written at offset 0 of the empty regular
file. -/
theorem inode_write_size_update_witness :
    ∃ r, inode_write env0 file0 (fun _ => 171) 0 600 world0 = .ok r ∧
      r.ret = ((600 : Nat) : Int) ∧
      r.ino = { file0 with d := { file0.d with size := max file0.d.size (0 + 600) } } ∧
      (∀ i, i < xfer_iterations 0 600 →
        write_moves env0 600
          ((write_step env0 600)^[i] (xfer_init (fun _ => 171) 0 file0 world0))) ∧
      r.w = (if file0.d.size < 0 + 600 then
          inode_flush env0 r.ino
            ((write_step env0 600)^[xfer_iterations 0 600]
              (xfer_init (fun _ => 171) 0 file0 world0)).w
        else ((write_step env0 600)^[xfer_iterations 0 600]
              (xfer_init (fun _ => 171) 0 file0 world0)).w) ∧
      r.w.calls =
        ((write_step env0 600)^[xfer_iterations 0 600]
          (xfer_init (fun _ => 171) 0 file0 world0)).w.calls ++
        (if file0.d.size < 0 + 600 then
          [Call.bcache_read file0.dev (get_inode_block env0 file0.inum),
           Call.bcache_write file0.dev (get_inode_block env0 file0.inum),
           Call.bcache_release file0.dev (get_inode_block env0 file0.inum)]
         else []) :=
  inode_write_size_update env0 file0 (fun _ => 171) 0 600 world0 (by decide) (by decide)
    (by decide)

end Melon

namespace Melon

/-! ## Content of a read: claim C18 -/

/-- Up to logical block `NDIRECT` the index that `inode_bmap` uses lies inside
the pointer table. -/
theorem addrs_at_inside (E : Env) (d : DInode) (nth : Nat) (h : nth < d.addrs.length) :
    addrs_at E d nth = d.addrs.getD nth 0 := by
  unfold addrs_at
  rw [List.getD_eq_getElem?_getD, List.getElem?_eq_getElem h]
  rfl

/-- On an allocated block up to logical block `NDIRECT`, `inode_bmap` allocates
nothing, and the block it returns depends on the content of the store only. -/
theorem inode_bmap_of_allocated (E : Env) (ino : Inode) (nth : Nat) (w v : World)
    (hlen : ino.d.addrs.length = NDIRECT + 1) (hlow : nth ≤ NDIRECT)
    (hst : v.store = w.store) (h : block_allocated ino nth w) :
    (inode_bmap E ino nth v).blockno = (inode_bmap E ino nth w).blockno ∧
      (inode_bmap E ino nth v).w.nalloc = v.nalloc := by
  have ha := addrs_at_inside E ino.d nth (by omega)
  unfold block_allocated at h
  unfold inode_bmap
  by_cases hn : nth < NDIRECT
  · rw [if_pos hn] at h
    rw [← ha] at h
    simp only [if_pos hn, if_neg h, and_self]
  · rw [if_neg hn] at h
    have he : nth = NDIRECT := by omega
    rw [he] at ha
    rw [← ha] at h
    obtain ⟨h1, h3⟩ := h
    rw [he]
    rw [he] at h3
    simp only [lt_irrefl, if_false, if_neg h1, bcache_read, hst, if_neg h3, bcache_release,
      and_self]

theorem read_step_bp (E : Env) (sz : Nat) (s : Xfer) :
    (read_step E sz s).bp = s.bp + chunk sz s :=
  rfl

/-- The loop of `inode_read` over allocated blocks up to logical block
`NDIRECT`: it returns, fills the buffer with the bytes of the flat read and
changes neither the store nor the allocator. -/
theorem read_loop_flat (E : Env) (ino : Inode) (buf : Nat → Nat) (w : World)
    (offset n : Nat) (hn : offset + n < U32) (hlen : ino.d.addrs.length = NDIRECT + 1)
    (halloc : ∀ j, offset / BSIZE ≤ j → j * BSIZE < offset + n →
      j ≤ NDIRECT ∧ block_allocated ino j w) :
    ∀ (k : Nat) (s : Xfer), s.n ≤ n → n - s.n ≤ k →
      s.ino = ino → s.bp = s.n → s.offset = offset + s.n →
      s.w.store = w.store → s.w.nalloc = w.nalloc →
      (∀ i, i < s.n → s.buf i = flat_read E ino w offset i) →
      (∀ i, s.n ≤ i → s.buf i = buf i) →
      ∃ t, read_loop E n k s = .ok t ∧ t.n = n ∧ t.ino = ino ∧
        t.w.store = w.store ∧ t.w.nalloc = w.nalloc ∧
        (∀ i, i < n → t.buf i = flat_read E ino w offset i) ∧
        (∀ i, n ≤ i → t.buf i = buf i) := by
  have hB : BSIZE = 512 := rfl
  intro k
  induction k with
  | zero =>
    intro s hsn hk hi _ _ hst hna hlo hhi
    have hlt : ¬ s.n < n := by omega
    have he : s.n = n := by omega
    refine ⟨s, by simp [read_loop, hlt], he, hi, hst, hna, ?_, ?_⟩
    · intro i h; exact hlo i (by omega)
    · intro i h; exact hhi i (by omega)
  | succ k ih =>
    intro s hsn hk hi hbp hoff hst hna hlo hhi
    by_cases h : s.n < n
    · obtain ⟨hm1, hm2⟩ := chunk_bounds n s.n s.offset (by omega) h
      have hmod : (n - s.n) % U32 = n - s.n := Nat.mod_eq_of_lt (by omega)
      have hc : chunk n s = min (n - s.n) (BSIZE - s.offset % BSIZE) := by
        unfold chunk; rw [hmod]
      have hc1 : 1 ≤ chunk n s := hm1
      have hc2 : chunk n s ≤ n - s.n := hm2
      have hcB : chunk n s ≤ BSIZE - s.offset % BSIZE := by
        rw [hc]; exact Nat.min_le_right _ _
      have hn1 : (read_step E n s).n = s.n + chunk n s := by
        rw [read_step_n]; exact Nat.mod_eq_of_lt (by omega)
      have ho1 : (read_step E n s).offset = s.offset + chunk n s := by
        rw [read_step_offset]; exact Nat.mod_eq_of_lt (by omega)
      have hal : s.offset / BSIZE ≤ NDIRECT ∧ block_allocated ino (s.offset / BSIZE) w := by
        apply halloc
        · rw [hoff, hB]; omega
        · rw [hoff, hB]; omega
      obtain ⟨hb1, hb2⟩ :=
        inode_bmap_of_allocated E ino (s.offset / BSIZE) w s.w hlen hal.1 hst hal.2
      rw [hB] at hcB
      obtain ⟨t, ht, htn, hti, hts, hta, htlo, hthi⟩ := ih (read_step E n s)
        (by omega) (by omega)
        (by rw [read_step_ino, hi])
        (by rw [read_step_bp, hn1, hbp])
        (by rw [ho1, hn1, hoff]; omega)
        (by
          show (bcache_release _ _ (bcache_read _ _ (inode_bmap E s.ino _ s.w).w)).store = _
          simp only [bcache_release, bcache_read]
          rw [inode_bmap_keeps_store, hst])
        (by
          show (bcache_release _ _ (bcache_read _ _ (inode_bmap E s.ino _ s.w).w)).nalloc = _
          simp only [bcache_release, bcache_read]
          rw [hi, hb2, hna])
        (by
          intro i hlt
          rw [hn1] at hlt
          show memmove s.buf s.bp
            ((bcache_read _ _ (inode_bmap E s.ino (s.offset / BSIZE) s.w).w).store
              (inode_bmap E s.ino (s.offset / BSIZE) s.w).ino.dev
              (inode_bmap E s.ino (s.offset / BSIZE) s.w).blockno)
            (s.offset % BSIZE) (chunk n s) i = _
          simp only [bcache_read, memmove, inode_bmap_keeps_store, inode_bmap_ino, hi, hb1, hst, hbp]
          by_cases hin : s.n ≤ i
          · rw [if_pos ⟨hin, by omega⟩]
            unfold flat_read
            have e1 : (offset + i) / BSIZE = s.offset / BSIZE := by
              rw [hoff, hB]; omega
            have e2 : (offset + i) % BSIZE = s.offset % BSIZE + (i - s.n) := by
              rw [hoff, hB]; omega
            rw [e1, e2]
          · rw [if_neg (by omega)]
            exact hlo i (by omega))
        (by
          intro i hge
          rw [hn1] at hge
          show memmove s.buf s.bp _ _ (chunk n s) i = _
          simp only [memmove, hbp]
          rw [if_neg (by omega)]
          exact hhi i (by omega))
      exact ⟨t, by simp [read_loop, h, ht], htn, hti, hts, hta, htlo, hthi⟩
    · have he : s.n = n := by omega
      refine ⟨s, by simp [read_loop, h], he, hi, hst, hna, ?_, ?_⟩
      · intro i h'; exact hlo i (by omega)
      · intro i h'; exact hhi i (by omega)

/-- Where every touched logical block is allocated and none lies past block
`NDIRECT`, `inode_read` returns the bytes of the flat read, leaves the rest of
the buffer as it was and changes neither the store, the allocator nor the
inode. -/
theorem inode_read_flat_low (E : Env) (ino : Inode) (buf : Nat → Nat) (offset sz : Nat)
    (w : World) (ht : ino.d.type = F_DIR ∨ ino.d.type = F_FILE)
    (ho : offset ≤ ino.d.size) (hs : offset + sz < U32)
    (hlen : ino.d.addrs.length = NDIRECT + 1)
    (halloc : ∀ j, offset / BSIZE ≤ j →
      j * BSIZE < offset + min sz (ino.d.size - offset) →
      j ≤ NDIRECT ∧ block_allocated ino j w) :
    ∃ r, inode_read E ino buf offset sz w = .ok r ∧
      (∀ k, k < min sz (ino.d.size - offset) → r.buf k = flat_read E ino w offset k) ∧
      (∀ k, min sz (ino.d.size - offset) ≤ k → r.buf k = buf k) ∧
      r.w.store = w.store ∧ r.w.nalloc = w.nalloc ∧ r.ino = ino := by
  have hd := not_dev_of_dir_or_file ino ht
  have hU : U32 = 4294967296 := by decide
  have h1 : ¬ ino.d.size < offset := by omega
  have h2 : ¬ (U32 - 1) - offset < sz := by omega
  have h4 : (offset + sz) % U32 = offset + sz := Nat.mod_eq_of_lt hs
  have hsz1 : (if (offset + sz) % U32 > ino.d.size then (ino.d.size - offset) % U32 else sz)
      = min sz (ino.d.size - offset) := by
    rw [h4]
    split
    · rw [Nat.mod_eq_of_lt (by omega)]; omega
    · omega
  have hle : min sz (ino.d.size - offset) ≤ sz := Nat.min_le_left _ _
  obtain ⟨t, ht1, _, hti, hts, hta, hlo, hhi⟩ :=
    read_loop_flat E ino buf w offset (min sz (ino.d.size - offset)) (by omega) hlen halloc
      (min sz (ino.d.size - offset))
      { buf := buf, bp := 0, offset := offset, n := 0, ino := ino, w := w }
      (Nat.zero_le _) (by simp) rfl rfl rfl rfl rfl
      (fun i hi => absurd hi (Nat.not_lt_zero i)) (fun _ _ => rfl)
  unfold inode_read
  rw [if_neg hd, if_pos ht, if_neg h1, if_neg h2]
  dsimp only
  rw [hsz1, ht1]
  exact ⟨_, rfl, hlo, hhi, hts, hta, hti⟩

/-- C18 (block-by-block read equals the flat reference read), evaluated on a
file of 15 blocks whose blocks are all allocated (index block 50 maps the
logical blocks 12, 13, 14 to the blocks 76, 77, 78, filled with the bytes 6, 7,
8).  A read of 1024 bytes over the logical blocks 11 and 12 returns the file's
bytes 5 and 6 and allocates nothing.  A read of 1024 bytes over the logical
blocks 13 and 14, both allocated, returns 1024 but allocates four blocks:
inode_bmap looks up the table at index 13 and 14, behind the table, instead of
the indirect pointer, and maps each block to a fresh one.  Byte 0 comes back as
0 and byte 512 as 3, the content of the free blocks 101 and 103, where the file
holds 7 and 8 and the flat read through inode_bmap gives 0 for byte 512. -/
theorem inode_read_misses_allocated_blocks :
    block_allocated file_alloc 11 world_alloc ∧ block_allocated file_alloc 12 world_alloc ∧
    block_allocated file_alloc 13 world_alloc ∧ block_allocated file_alloc 14 world_alloc ∧
    (∃ r, inode_read env0 file_alloc (fun _ => 0) 5632 1024 world_alloc = .ok r ∧
      r.ret = 1024 ∧ r.buf 0 = 5 ∧ r.buf 512 = 6 ∧ r.w.nalloc = 0) ∧
    world_alloc.store 0 77 0 = 7 ∧ world_alloc.store 0 78 0 = 8 ∧
    flat_read env0 file_alloc world_alloc 6656 512 = 0 ∧
    (∃ r, inode_read env0 file_alloc (fun _ => 0) 6656 1024 world_alloc = .ok r ∧
      r.ret = 1024 ∧ r.buf 0 = 0 ∧ r.buf 512 = 3 ∧ r.w.nalloc = 4) := by
  refine ⟨?_, ?_, ?_, ?_, ⟨_, rfl, by decide, by decide, by decide, by decide⟩,
    by decide, by decide, by decide,
    ⟨_, rfl, by decide, by decide, by decide, by decide⟩⟩ <;>
  · unfold block_allocated
    decide

end Melon

namespace Melon

/-! ## Flush and load: claim C14 -/

/-- A word read inside a region just copied by `memmove` is the word of the
source. -/
theorem le_word_memmove (dst src : Nat → Nat) (pos n : Nat) :
    ∀ (k j : Nat), j + k ≤ n →
      le_word k (memmove dst pos src 0 n) (pos + j) = le_word k src j := by
  intro k
  induction k with
  | zero => intro j _; rfl
  | succ k ih =>
    intro j hj
    have h1 : memmove dst pos src 0 n (pos + j) = src j := by
      unfold memmove
      rw [if_pos ⟨by omega, by omega⟩]
      congr 1
      omega
    have h2 := ih (j + 1) (by omega)
    have h3 : pos + j + 1 = pos + (j + 1) := by omega
    simp only [le_word, h1, h3, h2]

/-- A word depends only on the bytes it covers. -/
theorem le_word_congr (b c : Nat → Nat) :
    ∀ (k p : Nat), (∀ i, p ≤ i → i < p + k → b i = c i) → le_word k b p = le_word k c p := by
  intro k
  induction k with
  | zero => intro p _; rfl
  | succ k ih =>
    intro p h
    have h1 : b p = c p := h p (Nat.le_refl _) (by omega)
    have h2 := ih (p + 1) (fun i hi1 hi2 => h i (by omega) (by omega))
    simp only [le_word, h1, h2]

theorem list_getD_range (l : List Nat) (n : Nat) (h : l.length = n) :
    (List.range n).map (fun i => l.getD i 0) = l := by
  apply List.ext_getElem
  · simp [h]
  · intro i h1 h2
    simp [List.getD_eq_getElem?_getD, List.getElem?_eq_getElem h2]

theorem le_word4_eq (b : Nat → Nat) (p v : Nat) (hv : v < 2 ^ 32)
    (h0 : b p = v % 256) (h1 : b (p + 1) = v / 256 % 256)
    (h2 : b (p + 1 + 1) = v / 256 / 256 % 256)
    (h3 : b (p + 1 + 1 + 1) = v / 256 / 256 / 256 % 256) : le_word 4 b p = v := by
  simp only [le_word, h0, h1, h2, h3]
  omega

theorem le_word2_eq (b : Nat → Nat) (p v : Nat) (hv : v < 2 ^ 16)
    (h0 : b p = v % 256) (h1 : b (p + 1) = v / 256 % 256) : le_word 2 b p = v := by
  simp only [le_word, h0, h1]
  omega

/-- Decoding the bytes of a payload gives the payload back. -/
theorem DInode.ofBytes_bytes (d : DInode) (hf : d.fits) :
    DInode.ofBytes (fun i => d.bytes.getD i 0) 0 = d := by
  obtain ⟨h1, h2, h3, h4, h5, h6, h7⟩ := hf
  have ha : ∀ i, d.addrs.getD i 0 < 2 ^ 32 := by
    intro i
    rw [List.getD_eq_getElem?_getD]
    cases hi : d.addrs[i]? with
    | none => simp
    | some a => exact h7 a (List.getElem?_mem hi)
  have hl := list_getD_range d.addrs (NDIRECT + 1) h6
  cases d with
  | mk type major minor nlink size addrs =>
    simp only at h1 h2 h3 h4 h5 h6 ha hl
    simp only [DInode.ofBytes, DInode.mk.injEq]
    refine ⟨le_word4_eq _ _ _ h1 rfl rfl rfl rfl, le_word2_eq _ _ _ h2 rfl rfl,
      le_word2_eq _ _ _ h3 rfl rfl, le_word2_eq _ _ _ h4 rfl rfl,
      le_word4_eq _ _ _ h5 rfl rfl rfl rfl, ?_⟩
    conv_rhs => rw [← hl]
    apply List.map_congr_left
    intro i hi
    have hi' : i < 13 := List.mem_range.mp hi
    interval_cases i <;> exact le_word4_eq _ _ _ (ha _) rfl rfl rfl rfl

/-- Decoding depends only on the `sizeof(DInode)` bytes at the position. -/
theorem DInode.ofBytes_congr (b c : Nat → Nat) (pos : Nat)
    (h : ∀ i, pos ≤ i → i < pos + sizeof_DInode → b i = c i) :
    DInode.ofBytes b pos = DInode.ofBytes c pos := by
  have hs : sizeof_DInode = 68 := rfl
  rw [hs] at h
  simp only [DInode.ofBytes, DInode.mk.injEq]
  refine ⟨?_, ?_, ?_, ?_, ?_, ?_⟩
  · exact le_word_congr b c 4 pos (fun i h1 h2 => h i h1 (by omega))
  · exact le_word_congr b c 2 (pos + 4) (fun i h1 h2 => h i (by omega) (by omega))
  · exact le_word_congr b c 2 (pos + 6) (fun i h1 h2 => h i (by omega) (by omega))
  · exact le_word_congr b c 2 (pos + 8) (fun i h1 h2 => h i (by omega) (by omega))
  · exact le_word_congr b c 4 (pos + 12) (fun i h1 h2 => h i (by omega) (by omega))
  · apply List.map_congr_left
    intro i hi
    have hi' : i < 13 := List.mem_range.mp hi
    exact le_word_congr b c 4 (pos + 16 + 4 * i) (fun j h1 h2 => h j (by omega) (by omega))

/-- Decoding at the place where `memmove` has just put `sizeof(DInode)` bytes
gives what the source decodes to. -/
theorem DInode.ofBytes_memmove (dst src : Nat → Nat) (pos : Nat) :
    DInode.ofBytes (memmove dst pos src 0 sizeof_DInode) pos = DInode.ofBytes src 0 := by
  have hs : sizeof_DInode = 68 := rfl
  simp only [DInode.ofBytes, DInode.mk.injEq]
  refine ⟨?_, ?_, ?_, ?_, ?_, ?_⟩
  · exact le_word_memmove dst src pos _ 4 0 (by decide)
  · exact le_word_memmove dst src pos _ 2 4 (by decide)
  · exact le_word_memmove dst src pos _ 2 6 (by decide)
  · exact le_word_memmove dst src pos _ 2 8 (by decide)
  · exact le_word_memmove dst src pos _ 4 12 (by decide)
  · apply List.map_congr_left
    intro i hi
    have hi' : i < 13 := List.mem_range.mp hi
    have h := le_word_memmove dst src pos sizeof_DInode 4 (16 + 4 * i) (by rw [hs]; omega)
    rw [Nat.zero_add, Nat.add_assoc]
    exact h

/-- The store after `inode_flush`: the payload copied into the block of the
inode, everything else as before. -/
theorem inode_flush_store (E : Env) (ino : Inode) (w : World) :
    (inode_flush E ino w).store = store_set w.store ino.dev (get_inode_block E ino.inum)
      (memmove (w.store ino.dev (get_inode_block E ino.inum))
        (ino.inum % inode_per_block * sizeof_DInode) (fun i => ino.d.bytes.getD i 0) 0
        sizeof_DInode) :=
  rfl

/-- C14: inode_flush of an inode whose payload P has a valid type and fields
that fit their C types, followed by inode_load into a slot for the same (dev,
inum) with the loaded flag false and a reference count >= 1, returns true and
leaves the slot with payload P and the loaded flag set; inode_flush changes, in
the whole store, only the sizeof(DInode) bytes at offset (inum mod
inodes-per-block) * sizeof(DInode) of the backing block, so that every other
inode record of that block decodes as before. -/
theorem inode_flush_load (E : Env) (ino slot : Inode) (w : World) (hf : ino.d.fits)
    (hty : ino.d.type = F_DIR ∨ ino.d.type = F_FILE ∨ ino.d.type = F_DEV)
    (hdev : slot.dev = ino.dev) (hinum : slot.inum = ino.inum)
    (hread : slot.read = false) (href : 1 ≤ slot.nref) :
    (∃ w1, inode_load E (some slot) (inode_flush E ino w)
        = .ok (true, some { slot with d := ino.d, read := true }, w1) ∧
      w1.store = (inode_flush E ino w).store) ∧
    (∀ dev b i, ¬ (dev = ino.dev ∧ b = get_inode_block E ino.inum ∧
        ino.inum % inode_per_block * sizeof_DInode ≤ i ∧
        i < ino.inum % inode_per_block * sizeof_DInode + sizeof_DInode) →
      (inode_flush E ino w).store dev b i = w.store dev b i) ∧
    (∀ k, k ≠ ino.inum % inode_per_block →
      DInode.ofBytes ((inode_flush E ino w).store ino.dev (get_inode_block E ino.inum))
          (k * sizeof_DInode)
        = DInode.ofBytes (w.store ino.dev (get_inode_block E ino.inum))
          (k * sizeof_DInode)) := by
  have hs : sizeof_DInode = 68 := rfl
  have hframe : ∀ dev b i, ¬ (dev = ino.dev ∧ b = get_inode_block E ino.inum ∧
        ino.inum % inode_per_block * sizeof_DInode ≤ i ∧
        i < ino.inum % inode_per_block * sizeof_DInode + sizeof_DInode) →
      (inode_flush E ino w).store dev b i = w.store dev b i := by
    intro dev b i hni
    rw [inode_flush_store]
    unfold store_set
    by_cases hb : dev = ino.dev ∧ b = get_inode_block E ino.inum
    · rw [if_pos hb]
      obtain ⟨hb1, hb2⟩ := hb
      unfold memmove
      rw [if_neg (fun hc => hni ⟨hb1, hb2, hc.1, hc.2⟩), hb1, hb2]
    · rw [if_neg hb]
  refine ⟨?_, hframe, ?_⟩
  · have hn : ¬ slot.nref = 0 := by omega
    have hdec : DInode.ofBytes
        ((inode_flush E ino w).store ino.dev (get_inode_block E ino.inum))
        (ino.inum % inode_per_block * sizeof_DInode) = ino.d := by
      rw [inode_flush_store]
      unfold store_set
      rw [if_pos ⟨rfl, rfl⟩, DInode.ofBytes_memmove]
      exact DInode.ofBytes_bytes ino.d hf
    have ht0 : ¬ ino.d.type = 0 := by
      rcases hty with h | h | h <;> rw [h] <;> decide
    refine ⟨bcache_release ino.dev (get_inode_block E ino.inum)
      (bcache_read ino.dev (get_inode_block E ino.inum) (inode_flush E ino w)), ?_, rfl⟩
    simp [inode_load, hn, hread, hdev, hinum, bcache_read, hdec, ht0]
  · intro k hk
    apply DInode.ofBytes_congr
    intro i h1 h2
    apply hframe
    rintro ⟨_, _, h3, h4⟩
    rw [hs] at h1 h2 h3 h4
    rcases Nat.lt_or_gt_of_ne hk with h | h
    · have : (k + 1) * 68 ≤ ino.inum % inode_per_block * 68 := Nat.mul_le_mul_right 68 h
      omega
    · have : (ino.inum % inode_per_block + 1) * 68 ≤ k * 68 := Nat.mul_le_mul_right 68 h
      omega

/-- Witness for C14: the empty regular file `file0` flushed, then loaded into
a slot that has not loaded it yet. -/
theorem inode_flush_load_witness :
    (∃ w1, inode_load env0 (some file0_unloaded) (inode_flush env0 file0 world0)
        = .ok (true, some { file0_unloaded with d := file0.d, read := true }, w1) ∧
      w1.store = (inode_flush env0 file0 world0).store) ∧
    (∀ dev b i, ¬ (dev = file0.dev ∧ b = get_inode_block env0 file0.inum ∧
        file0.inum % inode_per_block * sizeof_DInode ≤ i ∧
        i < file0.inum % inode_per_block * sizeof_DInode + sizeof_DInode) →
      (inode_flush env0 file0 world0).store dev b i = world0.store dev b i) ∧
    (∀ k, k ≠ file0.inum % inode_per_block →
      DInode.ofBytes
          ((inode_flush env0 file0 world0).store file0.dev (get_inode_block env0 file0.inum))
          (k * sizeof_DInode)
        = DInode.ofBytes (world0.store file0.dev (get_inode_block env0 file0.inum))
          (k * sizeof_DInode)) :=
  inode_flush_load env0 file0 file0_unloaded world0 (by unfold DInode.fits; decide)
    (by decide) (by decide) (by decide) (by decide) (by decide)

end Melon

namespace Melon

/-! ## Reference counts: claim C20 -/

theorem wrap_int_of_range (x : Int) (h1 : -2147483648 ≤ x) (h2 : x ≤ 2147483647) :
    wrap_int x = x := by
  unfold wrap_int
  omega

theorem wrap_int_le (x : Int) : wrap_int x ≤ INT_MAX := by
  unfold wrap_int INT_MAX
  omega

theorem put_refs_nonneg (c : ICache) (i : Nat) (x : Inode) (hc : refs_nonneg c)
    (hx : i < c.inodes.length → 0 ≤ x.nref) : refs_nonneg (c.put i x) := by
  unfold ICache.put
  by_cases h : i < c.inodes.length
  · rw [if_pos h]
    intro y hy
    rcases List.mem_or_eq_of_mem_set hy with hm | he
    · exact hc y hm
    · rw [he]; exact hx h
  · rw [if_neg h]
    exact hc

theorem put_refs_int (c : ICache) (i : Nat) (x : Inode) (hc : refs_int c)
    (hx : x.nref ≤ INT_MAX) : refs_int (c.put i x) := by
  unfold ICache.put
  by_cases h : i < c.inodes.length
  · rw [if_pos h]
    intro y hy
    rcases List.mem_or_eq_of_mem_set hy with hm | he
    · exact hc y hm
    · rw [he]; exact hx
  · rw [if_neg h]
    exact hc

theorem slot_refs_nonneg (c : ICache) (i : Nat) (hc : refs_nonneg c)
    (h : i < c.inodes.length) : 0 ≤ (c.slot i).nref := by
  unfold ICache.slot
  rw [List.getElem?_eq_getElem h]
  exact hc _ (List.getElem_mem h)

/-- An increment of a count that is >= 0 and below `INT_MAX` does not wrap. -/
theorem incr_nonneg (n : Int) (h0 : 0 ≤ n) (h1 : n < INT_MAX) : 0 ≤ wrap_int (n + 1) := by
  unfold INT_MAX at h1
  rw [wrap_int_of_range (n + 1) (by omega) (by omega)]
  omega

theorem inode_get_from_refs (dev inum : Nat) :
    ∀ (k i : Nat) (c : ICache), refs_nonneg c → refs_int c →
      (∀ j ∈ (inode_get_from dev inum k i c).1, (c.slot j).nref < INT_MAX) →
      refs_nonneg (inode_get_from dev inum k i c).2 ∧
        refs_int (inode_get_from dev inum k i c).2 := by
  intro k
  induction k with
  | zero => intro i c hc hi _; exact ⟨hc, hi⟩
  | succ k ih =>
    intro i c hc hi hr
    unfold inode_get_from at hr ⊢
    dsimp only at hr ⊢
    split
    · rename_i hhit
      rw [if_pos hhit] at hr
      have hlt := hr i rfl
      exact ⟨put_refs_nonneg c i _ hc (fun h =>
          incr_nonneg _ (slot_refs_nonneg c i hc h) hlt),
        put_refs_int c i _ hi (wrap_int_le _)⟩
    · rename_i hhit
      rw [if_neg hhit] at hr
      split
      · exact ⟨put_refs_nonneg c i _ hc (fun _ => by show (0 : Int) ≤ 1; decide),
          put_refs_int c i _ hi (by show (1 : Int) ≤ INT_MAX; decide)⟩
      · rename_i hfree
        rw [if_neg hfree] at hr
        exact ih (i + 1) c hc hi hr

theorem icall_step_refs (E : Env) (c : ICache) (x : ICall) (hc : refs_nonneg c)
    (hi : refs_int c) (hx : calls_in_range E c [x]) :
    refs_nonneg (icall_step E c x) ∧ refs_int (icall_step E c x) := by
  cases x with
  | get dev inum =>
    exact inode_get_from_refs dev inum _ 0 c hc hi hx.1
  | dup i =>
    exact ⟨put_refs_nonneg c i _ hc (fun h =>
        incr_nonneg _ (slot_refs_nonneg c i hc h) hx.1),
      put_refs_int c i _ hi (wrap_int_le _)⟩
  | drop i =>
    have h1 : 1 ≤ (c.slot i).nref := hx.1
    refine ⟨put_refs_nonneg c i _ hc (fun h => ?_), put_refs_int c i _ hi (wrap_int_le _)⟩
    have h2 : (c.slot i).nref ≤ INT_MAX := by
      unfold ICache.slot
      rw [List.getElem?_eq_getElem h]
      exact hi _ (List.getElem_mem h)
    unfold INT_MAX at h2
    show 0 ≤ wrap_int ((c.slot i).nref - 1)
    rw [wrap_int_of_range _ (by omega) (by omega)]
    omega

set_option maxRecDepth 100000 in
/-- C20 as stated fails: one inode_drop on a free slot of a table whose counts
are all 0 drives that slot to -1; a following inode_get(0, 0), whose identity
the slot carries, neither matches nor reclaims it and takes slot 1. -/
theorem inode_drop_goes_negative :
    refs_nonneg (icache_of []) ∧
    ((icalls env0 (icache_of []) [ICall.drop 0]).slot 0).nref = -1 ∧
    (inode_get env0 0 0 (icalls env0 (icache_of []) [ICall.drop 0])).1 = some 1 ∧
    ((inode_get env0 0 0 (icalls env0 (icache_of []) [ICall.drop 0])).2.slot 0).nref = -1 := by
  refine ⟨?_, by decide, by decide, by decide⟩
  unfold refs_nonneg
  decide

set_option maxRecDepth 100000 in
/-- The count is a C int: on a slot whose count is INT_MAX, an inode_dup, and
likewise the hit of an inode_get, wraps the count to -2^31. -/
theorem inode_dup_wraps_at_INT_MAX :
    refs_nonneg icache_max ∧ refs_int icache_max ∧
    ((icalls env0 icache_max [ICall.dup 0]).slot 0).nref = -2147483648 ∧
    ((icalls env0 icache_max [ICall.get 0 0]).slot 0).nref = -2147483648 := by
  refine ⟨?_, ?_, by decide, by decide⟩
  · unfold refs_nonneg; decide
  · unfold refs_int; decide

/-- C20, amended: starting from a table in which every slot has a reference
count >= 0 (and, being a C int, at most INT_MAX), every sequence of inode_get,
inode_dup and inode_drop calls in which each inode_drop is applied to a slot
with count >= 1 and each increment (inode_dup, or the slot an inode_get
returns) to a slot with count below INT_MAX leaves every slot's reference count
>= 0 and at most INT_MAX; and inode_dup followed by inode_drop restores the
inode, its count included, for every count a C int holds. -/
theorem icalls_refs_nonneg (E : Env) (l : List ICall) :
    ∀ (c : ICache), refs_nonneg c → refs_int c → calls_in_range E c l →
      refs_nonneg (icalls E c l) ∧ refs_int (icalls E c l) ∧
      ∀ ino : Inode, -2147483648 ≤ ino.nref → ino.nref ≤ INT_MAX →
        inode_drop (inode_dup ino) = ino := by
  induction l with
  | nil =>
    intro c hc hi _
    refine ⟨hc, hi, fun ino h1 h2 => ?_⟩
    unfold INT_MAX at h2
    have h : wrap_int (wrap_int (ino.nref + 1) - 1) = ino.nref := by
      unfold wrap_int
      omega
    simp [inode_drop, inode_dup, h]
  | cons x l ih =>
    intro c hc hi hd
    have hx : calls_in_range E c [x] := by
      cases x <;> exact ⟨hd.1, trivial⟩
    have hrest : calls_in_range E (icall_step E c x) l := by
      cases x <;> exact hd.2
    obtain ⟨h1, h2⟩ := icall_step_refs E c x hc hi hx
    exact ih _ h1 h2 hrest

set_option maxRecDepth 100000 in
/-- Witness for C20: on the table with a free slot 0 and a live slot 1, a get, a
dup of slot 1 and two drops of slot 1. -/
theorem icalls_refs_nonneg_witness :
    refs_nonneg (icalls env0 icache_hit_later
        [ICall.get 0 9, ICall.dup 1, ICall.drop 1, ICall.drop 1]) ∧
      refs_int (icalls env0 icache_hit_later
        [ICall.get 0 9, ICall.dup 1, ICall.drop 1, ICall.drop 1]) ∧
      ∀ ino : Inode, -2147483648 ≤ ino.nref → ino.nref ≤ INT_MAX →
        inode_drop (inode_dup ino) = ino :=
  icalls_refs_nonneg env0 [ICall.get 0 9, ICall.dup 1, ICall.drop 1, ICall.drop 1]
    icache_hit_later (by unfold refs_nonneg; decide) (by unfold refs_int; decide)
    (by simp only [calls_in_range]; decide)

end Melon

namespace Melon

/-! ## Formatted output: claim C17 -/

/-- C17 (tty_printf handles %s in the middle of a format), evaluated on the
format "a%sb" with the string argument "XY", no escape character anywhere: the
characters emitted are "aXY" and the "b" that follows the directive is dropped,
because the format pointer is set to the address tty_write_string returns, the
end of the argument.  With "a%cb" and the argument 'X' the suffix is emitted:
"aXb". -/
theorem tty_printf_drops_text_after_s :
    emitted (tty_printf no_ansi mem_fmt 0 (fun _ => 16) 64 term0) = some [97, 88, 89] ∧
    emitted (tty_printf no_ansi mem_fmt_c 0 (fun _ => 88) 64 term0) = some [97, 88, 98] := by
  decide

end Melon

namespace Melon

/-! ## The cursor and the screen: claim C21 -/

set_option maxRecDepth 100000 in
/-- C21 (the terminal cursor stays inside the screen), evaluated on runs of
'\n' followed by the character 'A'.  From row 0, column 0, 24 newlines lead to
a write at cell 24 * 80 = 1920, inside the screen; 25 newlines leave the row at
VGA_HEIGHT, the test `term.row > VGA_HEIGHT` of tty_putchar does not fire, and
put_entry_at writes cell 25 * 80 = 2000, behind the 80 * 25 cells of the
screen; only after 26 newlines is the screen cleared and cell 0 written.
tty_init itself leaves the cursor at row 1, column 0 (it writes its banner), so
that after tty_init 24 newlines and an 'A' already write cell 2000. -/
theorem tty_putchar_writes_behind_screen :
    (tty_putchars (List.replicate 24 10 ++ [65]) term0).cells = [1920] ∧
    (tty_putchars (List.replicate 25 10) term0).row = VGA_HEIGHT ∧
    (tty_putchars (List.replicate 25 10 ++ [65]) term0).cells = [2000] ∧
    ¬ (2000 < VGA_WIDTH * VGA_HEIGHT) ∧
    (tty_putchars (List.replicate 26 10 ++ [65]) term0).cells = [0] ∧
    init_then_putchars no_ansi [] = some (1, 0, []) ∧
    init_then_putchars no_ansi (List.replicate 24 10 ++ [65]) = some (25, 1, [2000]) := by
  decide

end Melon
